import Mathlib

/-!
Shallow embedding of the SmartPowerManager schedule-resolution core.

Desktop side (Python, `ScheduleManager` and the GUI handlers of
`SmartPowerManagerApp`): conflict validation (`check_conflict`), the add
flows, next-event resolution (`get_next_event_info`), the per-minute
trigger matcher (`check_and_execute`), persistence (`load`/`save` with the
`load_failed` flag) and the confirmation-dialog countdown
(`_show_confirm_dialog`).

Embedded side (Pico W firmware): the `handleUpdateSchedule` batch parser
over Arduino `String` operations.

Modelling conventions:
- Python `datetime` values at minute precision are modelled by `DT`
  (an absolute day index plus hour and minute).  Day 0 is a Monday, so
  `weekday = day % 7` agrees with Python's `date.weekday()` numbering
  (0 = Monday); `absDay` maps a calendar date to its day index with this
  anchor (proleptic Gregorian, as Python's `datetime` uses).
- The formatted string `"%Y-%m-%d %H:%M"` is a bijection between
  minute-precision timestamps and their textual form, so the
  `skipped_dates` list of formatted strings is modelled as a list of `DT`
  values, and `strftime`/`strptime` round-trips become the identity.
- The current instant (`datetime.now()`) carries seconds, which matter for
  the one-time ±60-second tolerance window and for `target_time <= now`
  comparisons; it is modelled by `Now`.
- Side effects of `check_and_execute` (the `save()` call and the
  `_execute_action` handler invocation) are modelled as an explicit,
  ordered effect list.
-/

namespace SPM

/-- Actions of the desktop scheduler (the string constants
`ACTION_SHUTDOWN` / `ACTION_RESTART` of the source). -/
inductive Action
  | shutdown
  | restart
deriving DecidableEq, Repr

/-- Computes the opposing action, as the first line of `check_conflict`
does (`other_action = RESTART if action == SHUTDOWN else SHUTDOWN`). -/
def otherAction : Action → Action
  | Action.shutdown => Action.restart
  | Action.restart => Action.shutdown

/-- Minute-precision timestamp: absolute day index (day 0 is a Monday),
hour and minute.  This models both a parsed `datetime` value with
`second = microsecond = 0` and the formatted `"%Y-%m-%d %H:%M"` string
(the two are in bijection). -/
structure DT where
  day : Nat
  hour : Nat
  minute : Nat
deriving DecidableEq, Repr

/-- Seconds since the epoch of a minute-precision timestamp. -/
def DT.toSec (d : DT) : Nat := ((d.day * 24 + d.hour) * 60 + d.minute) * 60

/-- Python `weekday()` on the date of a `DT` (0 = Monday). -/
def DT.weekday (d : DT) : Nat := d.day % 7

/-- Adds `k` days, i.e. `dt + timedelta(days=k)`. -/
def DT.addDays (d : DT) (k : Nat) : DT := ⟨d.day + k, d.hour, d.minute⟩

/-- The current instant as observed by `datetime.now()`: a day index plus
hour, minute and second (sub-minute precision matters for the one-time
tolerance window and for `<=` comparisons against minute timestamps). -/
structure Now where
  day : Nat
  hour : Nat
  minute : Nat
  second : Nat
deriving DecidableEq, Repr

/-- Seconds since the epoch of the current instant. -/
def Now.toSec (n : Now) : Nat := ((n.day * 24 + n.hour) * 60 + n.minute) * 60 + n.second

/-- Python `now.weekday()` (0 = Monday). -/
def Now.weekday (n : Now) : Nat := n.day % 7

/-- Truncation of the current instant to minute precision; this is what
`now.strftime("%Y-%m-%d %H:%M")` denotes under the formatting bijection. -/
def Now.toDT (n : Now) : DT := ⟨n.day, n.hour, n.minute⟩

/-- True in Gregorian leap years, as Python's calendar has them. -/
def isLeap (y : Nat) : Bool := (y % 4 == 0 && y % 100 != 0) || y % 400 == 0

/-- Length of month `mo` (1-12) in year `y`. -/
def daysInMonth (y mo : Nat) : Nat :=
  if mo == 2 then (if isLeap y then 29 else 28)
  else if mo == 4 || mo == 6 || mo == 9 || mo == 11 then 30
  else 31

/-- Days in the months of year `y` strictly before month `mo`. -/
def daysBeforeMonth (y mo : Nat) : Nat :=
  (List.range mo).foldl (fun acc m => if 1 ≤ m then acc + daysInMonth y m else acc) 0

/-- Absolute day index of the calendar date `(y, mo, d)`: the rata-die
number minus one, so that 0001-01-01 (a Monday, `date(1,1,1).weekday() == 0`
in Python) is day 0 and `weekday = day % 7` matches Python throughout. -/
def absDay (y mo d : Nat) : Nat :=
  365 * (y - 1) + (y - 1) / 4 - (y - 1) / 100 + (y - 1) / 400 + daysBeforeMonth y mo + (d - 1)

/-- Validity of the argument tuple of `datetime(y, mo, d, h, mi)`: the
constructor raises `ValueError` exactly when a field is out of range. -/
def dateValid (y mo d h mi : Nat) : Bool :=
  1 ≤ y && y ≤ 9999 && 1 ≤ mo && mo ≤ 12 && 1 ≤ d && d ≤ daysInMonth y mo && h ≤ 23 && mi ≤ 59

/-- Minute-precision timestamp denoted by `datetime(y, mo, d, h, mi)`. -/
def mkDT (y mo d h mi : Nat) : DT := ⟨absDay y mo d, h, mi⟩

/-- Per-action daily setting, `{"enabled": _, "hour": _, "minute": _}`. -/
structure DailySetting where
  enabled : Bool
  hour : Nat
  minute : Nat
deriving DecidableEq, Repr

/-- Weekly schedule entry (`add_weekly` dict); ids are modelled as
naturals in place of `uuid4` strings. -/
structure WeeklyEntry where
  id : Nat
  action : Action
  weekday : Nat
  hour : Nat
  minute : Nat
deriving DecidableEq, Repr

/-- One-time schedule entry (`add_onetime` dict); the stored
`"%Y-%m-%d %H:%M"` string is kept in parsed form. -/
structure OneTimeEntry where
  id : Nat
  action : Action
  datetime : DT
  executed : Bool
  source : String
deriving DecidableEq, Repr

/-- Mutable state of a `ScheduleManager` (the fields the schedule engine
reads and writes; companion-device settings and the disclaimer flag are
carried by entries of the same shape and do not interact with the claims
modelled here). -/
structure ScheduleManager where
  dailyShutdown : DailySetting
  dailyRestart : DailySetting
  weekly_schedules : List WeeklyEntry
  onetime_schedules : List OneTimeEntry
  skipped_dates : List DT
  debug_mode : Bool
  load_failed : Bool
deriving DecidableEq, Repr

/-- Lookup in the `daily_schedule` dict, which holds exactly the keys
`shutdown` and `restart` (in that insertion order). -/
def ScheduleManager.daily (st : ScheduleManager) : Action → DailySetting
  | Action.shutdown => st.dailyShutdown
  | Action.restart => st.dailyRestart

/-- Writes one key of the `daily_schedule` dict. -/
def ScheduleManager.setDaily (st : ScheduleManager) : Action → DailySetting → ScheduleManager
  | Action.shutdown, s => { st with dailyShutdown := s }
  | Action.restart, s => { st with dailyRestart := s }

/-- Candidate time descriptor handed to `check_conflict` (its
`schedule_type` and `time_info` arguments combined). -/
inductive TimeInfo
  | daily (hour minute : Nat)
  | weekly (weekday hour minute : Nat)
  | onetime (dt : DT)
deriving DecidableEq, Repr

/-- Structured form of the human-readable conflict message that
`check_conflict` returns: the kind, slot and action of the colliding
entry (the source renders exactly these data into a Japanese string). -/
inductive ConflictDesc
  | daily (hour minute : Nat) (a : Action)
  | weekly (weekday hour minute : Nat) (a : Action)
  | onetime (dt : DT) (a : Action)
deriving DecidableEq, Repr

/-- Embeds `ScheduleManager.check_conflict`: branches on the schedule
kind, scans the opposing action's entries in list order and returns the
first collision found, else `none`.  Stored one-time datetimes are kept
parsed, so the `strptime` of the source always succeeds here (entries are
only ever created from well-formed datetimes). -/
def checkConflict (st : ScheduleManager) (actionType : Action) (ti : TimeInfo) : Option ConflictDesc :=
  let other := otherAction actionType
  match ti with
  | TimeInfo.daily h m =>
      let od := st.daily other
      if od.enabled && od.hour == h && od.minute == m then
        some (ConflictDesc.daily od.hour od.minute other)
      else none
  | TimeInfo.weekly w h m =>
      match st.weekly_schedules.find? (fun s =>
          s.action == other && s.weekday == w && s.hour == h && s.minute == m) with
      | some s => some (ConflictDesc.weekly s.weekday s.hour s.minute other)
      | none =>
          let od := st.daily other
          if od.enabled && od.hour == h && od.minute == m then
            some (ConflictDesc.daily od.hour od.minute other)
          else none
  | TimeInfo.onetime dt =>
      match st.onetime_schedules.find? (fun s =>
          s.action == other && !s.executed && s.datetime == dt) with
      | some s => some (ConflictDesc.onetime s.datetime other)
      | none =>
          match st.weekly_schedules.find? (fun s =>
              s.action == other && s.weekday == dt.weekday && s.hour == dt.hour && s.minute == dt.minute) with
          | some s => some (ConflictDesc.weekly s.weekday s.hour s.minute other)
          | none =>
              let od := st.daily other
              if od.enabled && od.hour == dt.hour && od.minute == dt.minute then
                some (ConflictDesc.daily od.hour od.minute other)
              else none

/-- Embeds `ScheduleManager.add_weekly`: appends the new entry and saves
(the returned state; the save call itself is modelled in the persistence
section).  `freshId` stands for the fresh `uuid4`. -/
def addWeekly (st : ScheduleManager) (freshId : Nat) (action : Action) (weekday hour minute : Nat) : ScheduleManager :=
  { st with weekly_schedules := st.weekly_schedules ++ [⟨freshId, action, weekday, hour, minute⟩] }

/-- Embeds `ScheduleManager.add_onetime`. -/
def addOnetime (st : ScheduleManager) (freshId : Nat) (action : Action) (dt : DT) (source : String) : ScheduleManager :=
  { st with onetime_schedules := st.onetime_schedules ++ [⟨freshId, action, dt, false, source⟩] }

/-- Embeds the GUI add handler `_add_weekly` / `_add_weekly_r`: run
`check_conflict` on the candidate slot, reject (store untouched) on a
collision, otherwise commit via `add_weekly`.  The weekday always lies in
0-6 here because the handler derives it from `WEEKDAYS_JP.index`; hour and
minute arrive as whatever integers `int()` produced — the handler performs
no range check on them. -/
def addWeeklyFlow (st : ScheduleManager) (freshId : Nat) (action : Action) (weekday hour minute : Nat) :
    ScheduleManager × Option ConflictDesc :=
  match checkConflict st action (TimeInfo.weekly weekday hour minute) with
  | some c => (st, some c)
  | none => (addWeekly st freshId action weekday hour minute, none)

/-- Embeds the GUI add handler `_add_onetime` / `_add_onetime_r`: construct
`datetime(y, mo, d, h, mi)` (whose `ValueError` on any out-of-range field
is caught by the surrounding `try`, committing nothing), then run
`check_conflict` and commit only when no collision is reported. -/
def addOnetimeFlow (st : ScheduleManager) (freshId : Nat) (action : Action) (y mo d h mi : Nat) :
    ScheduleManager × Option ConflictDesc × Bool :=
  if dateValid y mo d h mi then
    let dt := mkDT y mo d h mi
    match checkConflict st action (TimeInfo.onetime dt) with
    | some c => (st, some c, false)
    | none => (addOnetime st freshId action dt "manual", none, true)
  else (st, none, false)

/-- Embeds the GUI daily handler `_on_daily_changed` / `_on_daily_r_changed`:
when enabling, run `check_conflict` first and reject on a collision
(store untouched, checkbox reset); otherwise overwrite the action's daily
setting and save.  Hour and minute are committed without any range check. -/
def setDailyFlow (st : ScheduleManager) (action : Action) (enabled : Bool) (hour minute : Nat) :
    ScheduleManager × Option ConflictDesc :=
  if enabled then
    match checkConflict st action (TimeInfo.daily hour minute) with
    | some c => (st, some c)
    | none => (st.setDaily action ⟨enabled, hour, minute⟩, none)
  else (st.setDaily action ⟨enabled, hour, minute⟩, none)

/-- Spec-side collision predicate for a daily candidate (§4.1): the
opposing action's daily setting is enabled at the same (hour, minute);
a disabled setting resolves to no slot. -/
def specDailyCollision (st : ScheduleManager) (a : Action) (h m : Nat) : Prop :=
  (st.daily (otherAction a)).enabled = true ∧ (st.daily (otherAction a)).hour = h ∧
    (st.daily (otherAction a)).minute = m

/-- Spec-side collision predicate for a weekly candidate (§4.1): an
opposing weekly entry with the same (weekday, hour, minute) natural key,
or — cross-kind — the opposing enabled daily setting at (hour, minute). -/
def specWeeklyCollision (st : ScheduleManager) (a : Action) (w h m : Nat) : Prop :=
  (∃ s ∈ st.weekly_schedules,
      s.action = otherAction a ∧ s.weekday = w ∧ s.hour = h ∧ s.minute = m) ∨
    specDailyCollision st a h m

/-- Spec-side collision predicate for a one-time candidate (§4.1): an
opposing non-executed one-time entry at the exact parsed datetime, or the
opposing weekly entry whose weekday matches the candidate's calendar
weekday at the same time, or the opposing enabled daily setting. -/
def specOnetimeCollision (st : ScheduleManager) (a : Action) (dt : DT) : Prop :=
  (∃ s ∈ st.onetime_schedules,
      s.action = otherAction a ∧ s.executed = false ∧ s.datetime = dt) ∨
    (∃ s ∈ st.weekly_schedules,
      s.action = otherAction a ∧ s.weekday = dt.weekday ∧ s.hour = dt.hour ∧ s.minute = dt.minute) ∨
    specDailyCollision st a dt.hour dt.minute

instance (st : ScheduleManager) (a : Action) (h m : Nat) : Decidable (specDailyCollision st a h m) := by
  unfold specDailyCollision; infer_instance

instance (st : ScheduleManager) (a : Action) (w h m : Nat) : Decidable (specWeeklyCollision st a w h m) := by
  unfold specWeeklyCollision; infer_instance

instance (st : ScheduleManager) (a : Action) (dt : DT) : Decidable (specOnetimeCollision st a dt) := by
  unfold specOnetimeCollision; infer_instance

/-- Initial manager state as `__init__` builds it (both daily settings
disabled at 23:00, empty entry lists, flags cleared). -/
def initState : ScheduleManager :=
  ⟨⟨false, 23, 0⟩, ⟨false, 23, 0⟩, [], [], [], false, false⟩

/-- Sample state holding one restart weekly entry at (Wed, 08:30) and an
enabled restart daily setting at 23:00, used to exercise collisions. -/
def conflictState : ScheduleManager :=
  { initState with
      weekly_schedules := [⟨1, Action.restart, 2, 8, 30⟩],
      dailyRestart := ⟨true, 23, 0⟩ }

/-- Well-formedness of an observed instant: the fields of a real
`datetime.now()` always satisfy these bounds. -/
def Now.valid (n : Now) : Prop := n.hour < 24 ∧ n.minute < 60 ∧ n.second < 60

instance (n : Now) : Decidable n.valid := by
  unfold Now.valid; infer_instance

/-- Recurrence kinds, the `"onetime"` / `"weekly"` / `"daily"` tags of the
candidate tuples. -/
inductive Kind
  | onetime
  | weekly
  | daily
deriving DecidableEq, Repr

/-- Candidate tuple `(dt, type, action, id)` built by
`get_next_event_info` (`id` is `None` for daily candidates). -/
structure Cand where
  dt : DT
  kind : Kind
  action : Action
  id : Option Nat
deriving DecidableEq, Repr

/-- Bounded skip-list probing shared by the weekly and daily candidate
loops (`for _ in range(5)`): return the first probed slot whose formatted
timestamp is not in `skipped_dates`, advancing by `stepDays` per hit, and
abandon the entry (`none`) when all five probes are skipped. -/
def probeSkip (skipped : List DT) (stepDays : Nat) : Nat → DT → Option DT
  | 0, _ => none
  | n + 1, dt => if dt ∈ skipped then probeSkip skipped stepDays n (dt.addDays stepDays) else some dt

/-- Python `now.replace(hour=h, minute=m, second=0, microsecond=0)`: the
replacement succeeds only for in-range fields; for `h > 23` or `m > 59`
it raises `ValueError` (`none`).  The weekly and daily branches of
`get_next_event_info` call it with stored values and no surrounding
`try`, so an out-of-range stored hour or minute — which the add paths can
commit, see the C7 correction — makes the whole resolver raise. -/
def nowReplace (now : Now) (h m : Nat) : Option DT :=
  if h ≤ 23 ∧ m ≤ 59 then some ⟨now.day, h, m⟩ else none

/-- Advance of a successfully built `target_time` to the entry's next
weekly occurrence: `days_ahead = weekday - now.weekday()`, plus seven days
when that is negative or the slot today has already passed
(`target_time <= now`).  The adjusted `days_ahead` is never negative, so
the `Int.toNat` conversion is exact. -/
def nextWeeklyFrom (now : Now) (s : WeeklyEntry) (target : DT) : DT :=
  let d0 : Int := (s.weekday : Int) - (now.weekday : Int)
  let d1 : Int := if d0 < 0 ∨ (d0 = 0 ∧ target.toSec ≤ now.toSec) then d0 + 7 else d0
  target.addDays d1.toNat

/-- Next occurrence of a weekly entry at or after `now`:
`now.replace(hour=s.hour, minute=s.minute)` (which raises on out-of-range
stored values) advanced by the adjusted `days_ahead`. -/
def nextWeeklyStart (now : Now) (s : WeeklyEntry) : Option DT :=
  match nowReplace now s.hour s.minute with
  | none => none
  | some target => some (nextWeeklyFrom now s target)

/-- Advance of a successfully built daily `target_time`: today if still
ahead, else tomorrow (`if target_time <= now: target_time += 1 day`). -/
def nextDailyFrom (now : Now) (target : DT) : DT :=
  if target.toSec ≤ now.toSec then target.addDays 1 else target

/-- Next occurrence of an enabled daily setting, via the same fallible
`now.replace`. -/
def nextDailyStart (now : Now) (setting : DailySetting) : Option DT :=
  match nowReplace now setting.hour setting.minute with
  | none => none
  | some target => some (nextDailyFrom now target)

/-- One-time candidate pool of `get_next_event_info`: non-executed entries
whose datetime is strictly after `now` and not in the skip list (this loop
sits in a per-entry `try`, so it never raises). -/
def onetimeCandidates (st : ScheduleManager) (now : Now) : List Cand :=
  st.onetime_schedules.filterMap (fun s =>
    if s.executed then none
    else if now.toSec < s.datetime.toSec then
      if s.datetime ∈ st.skipped_dates then none
      else some ⟨s.datetime, Kind.onetime, s.action, some s.id⟩
    else none)

/-- The weekly candidate loop: for each entry build `target_time` (a
raise aborts the whole resolver — outer `none`), advance it through the
skip list by the bounded five-probe loop and collect the survivors. -/
def weeklyCandidatesGo (skipped : List DT) (now : Now) : List WeeklyEntry → Option (List Cand)
  | [] => some []
  | s :: rest =>
      match nextWeeklyStart now s with
      | none => none
      | some start =>
          match weeklyCandidatesGo skipped now rest with
          | none => none
          | some cs =>
              match probeSkip skipped 7 5 start with
              | some dt => some (⟨dt, Kind.weekly, s.action, some s.id⟩ :: cs)
              | none => some cs

/-- The daily candidate loop over the dict's iteration order: the
`enabled` test guards the `now.replace` call, so a disabled out-of-range
setting does not raise. -/
def dailyCandidatesGo (st : ScheduleManager) (now : Now) : List Action → Option (List Cand)
  | [] => some []
  | a :: rest =>
      let setting := st.daily a
      if setting.enabled then
        match nextDailyStart now setting with
        | none => none
        | some start =>
            match dailyCandidatesGo st now rest with
            | none => none
            | some cs =>
                match probeSkip st.skipped_dates 1 5 start with
                | some dt => some (⟨dt, Kind.daily, a, none⟩ :: cs)
                | none => some cs
      else dailyCandidatesGo st now rest

/-- Weekly candidate pool on a store whose weekly entries are all
in range — the value `weeklyCandidatesGo` then returns (proved in
`weeklyCandidatesGo_in_range`). -/
def weeklyCandidates (st : ScheduleManager) (now : Now) : List Cand :=
  st.weekly_schedules.filterMap (fun s =>
    match probeSkip st.skipped_dates 7 5 (nextWeeklyFrom now s ⟨now.day, s.hour, s.minute⟩) with
    | some dt => some ⟨dt, Kind.weekly, s.action, some s.id⟩
    | none => none)

/-- Daily candidate pool on a store whose enabled daily settings are all
in range (see `dailyCandidatesGo_in_range`). -/
def dailyCandidates (st : ScheduleManager) (now : Now) : List Cand :=
  [Action.shutdown, Action.restart].filterMap (fun a =>
    let setting := st.daily a
    if setting.enabled then
      match probeSkip st.skipped_dates 1 5
          (nextDailyFrom now ⟨now.day, setting.hour, setting.minute⟩) with
      | some dt => some ⟨dt, Kind.daily, a, none⟩
      | none => none
    else none)

/-- Pooled candidate list of a non-raising `get_next_event_info` run, in
append order onetime, weekly, daily. -/
def candidates (st : ScheduleManager) (now : Now) : List Cand :=
  onetimeCandidates st now ++ weeklyCandidates st now ++ dailyCandidates st now

/-- Sort key of `candidates.sort(key=lambda x: x[0])`: compare candidate
timestamps only. -/
def leCand (a b : Cand) : Bool := a.dt.toSec ≤ b.dt.toSec

/-- Embeds `ScheduleManager.get_next_event_info`: run the one-time, weekly
and daily candidate loops, stable-sort the pool ascending by timestamp and
return the first, or the all-`None` tuple (inner `none`) when no candidate
exists.  The outer `none` is the `ValueError` a weekly entry or enabled
daily setting with out-of-range hour/minute makes `now.replace` raise,
which escapes the method. -/
def getNextEventInfo (st : ScheduleManager) (now : Now) : Option (Option Cand) :=
  match weeklyCandidatesGo st.skipped_dates now st.weekly_schedules with
  | none => none
  | some wc =>
      match dailyCandidatesGo st now [Action.shutdown, Action.restart] with
      | none => none
      | some dc =>
          let cs := onetimeCandidates st now ++ wc ++ dc
          some (match cs.mergeSort leCand with
                | [] => none
                | c :: _ => some c)

/-- Sample state for the resolver: only the shutdown daily setting
enabled, at 23:00. -/
def dailyOnlyState : ScheduleManager :=
  { initState with dailyShutdown := ⟨true, 23, 0⟩ }

/-- Sample instant: 22:00:00 on day 700000 (a Monday, since 700000 is a
multiple of 7). -/
def sampleNow : Now := ⟨700000, 22, 0, 0⟩

/-- Trigger description passed to `_execute_action` (the source renders it
into the Japanese `trigger_type` string). -/
inductive Trigger
  | onetime (dt : DT)
  | weekly (weekday hour minute : Nat)
  | daily (hour minute : Nat)
deriving DecidableEq, Repr

/-- Observable side effects of one `check_and_execute` call, in the order
the source performs them: a `self.save()` call (with the state current at
that moment), a `self._execute_action` handler invocation, or the
suppression log line of a skipped recurring slot. -/
inductive Effect
  | save (st : ScheduleManager)
  | execute (a : Action) (t : Trigger)
  | logSkip (k : Kind) (dt : DT)
deriving DecidableEq, Repr

/-- True when an effect is a handler invocation. -/
def isExec : Effect → Bool
  | Effect.execute _ _ => true
  | _ => false

/-- The one-time tolerance test
`abs((now - scheduled_dt).total_seconds()) < 60`. -/
def toleranceHit (now : Now) (dt : DT) : Bool :=
  ((now.toSec : Int) - (dt.toSec : Int)).natAbs < 60

/-- The one-time loop of `check_and_execute`: scan in list order for the
first non-executed entry within the tolerance window, flip its `executed`
flag in place and return the updated list together with the flipped entry;
`none` when no entry matches. -/
def fireFirstOnetime (now : Now) : List OneTimeEntry → Option (List OneTimeEntry × OneTimeEntry)
  | [] => none
  | s :: rest =>
      if !s.executed && toleranceHit now s.datetime then
        some ({ s with executed := true } :: rest, { s with executed := true })
      else
        match fireFirstOnetime now rest with
        | some (rest2, hit) => some (s :: rest2, hit)
        | none => none

/-- The weekly match predicate of `check_and_execute`:
`current_weekday == s.weekday and now.hour == s.hour and now.minute == s.minute`. -/
def weeklyHit (now : Now) (s : WeeklyEntry) : Bool :=
  now.weekday == s.weekday && now.hour == s.hour && now.minute == s.minute

/-- The daily match predicate of `check_and_execute` for one action of the
dict iteration. -/
def dailyHit (st : ScheduleManager) (now : Now) (a : Action) : Bool :=
  (st.daily a).enabled && now.hour == (st.daily a).hour && now.minute == (st.daily a).minute

/-- Embeds `ScheduleManager.check_and_execute`: evaluate one-time entries,
then weekly entries, then daily settings, returning at the first match.
A one-time match flips `executed`, saves, then invokes the handler; a
weekly or daily match first tests the skip list on the formatted current
minute and either logs the suppression (returning `False` with the store
untouched) or invokes the handler.  The result is (returned bool,
post-call state, ordered effect list). -/
def checkAndExecute (st : ScheduleManager) (now : Now) : Bool × ScheduleManager × List Effect :=
  match fireFirstOnetime now st.onetime_schedules with
  | some (lst2, hit) =>
      let st2 := { st with onetime_schedules := lst2 }
      (true, st2, [Effect.save st2, Effect.execute hit.action (Trigger.onetime hit.datetime)])
  | none =>
      match st.weekly_schedules.find? (weeklyHit now) with
      | some s =>
          if now.toDT ∈ st.skipped_dates then
            (false, st, [Effect.logSkip Kind.weekly now.toDT])
          else
            (true, st, [Effect.execute s.action (Trigger.weekly s.weekday s.hour s.minute)])
      | none =>
          match [Action.shutdown, Action.restart].find? (dailyHit st now) with
          | some a =>
              if now.toDT ∈ st.skipped_dates then
                (false, st, [Effect.logSkip Kind.daily now.toDT])
              else
                (true, st, [Effect.execute a (Trigger.daily (st.daily a).hour (st.daily a).minute)])
          | none => (false, st, [])

/-- State evolution under a sequence of `check_and_execute` calls (the
monitor invokes it once per newly observed minute). -/
def runChecks (st : ScheduleManager) (times : List Now) : ScheduleManager :=
  times.foldl (fun s t => (checkAndExecute s t).2.1) st

/-- Contents of the persisted `schedules.json` as `save()` writes them
(the fields modelled here; the companion-device block and the disclaimer
flag ride along unchanged). -/
structure ConfigData where
  dailyShutdown : DailySetting
  dailyRestart : DailySetting
  weekly_schedules : List WeeklyEntry
  onetime : List OneTimeEntry
  skipped_dates : List DT
  debug_mode : Bool
deriving DecidableEq, Repr

/-- The dict `save()` serializes from the current state. -/
def serialize (st : ScheduleManager) : ConfigData :=
  ⟨st.dailyShutdown, st.dailyRestart, st.weekly_schedules, st.onetime_schedules,
    st.skipped_dates, st.debug_mode⟩

/-- Embeds `ScheduleManager.save`: when `load_failed` is set the method
returns without touching the file (`none` = no write); otherwise it writes
the serialized current state. -/
def performSave (st : ScheduleManager) : Option ConfigData :=
  if st.load_failed then none else some (serialize st)

/-- Outcome of reading the state file in `load()`: the file may be absent
(no body runs), unreadable or corrupt (the `except` branch runs), or
parsed (the assignments run). -/
inductive LoadResult
  | missing
  | corrupt
  | parsed (d : ConfigData)
deriving DecidableEq, Repr

/-- Embeds `ScheduleManager.load`: a missing file leaves the state as
built; a read or parse failure only sets `load_failed`; a parsed file
installs its fields (legacy migration already normalized into
`ConfigData`) and leaves `load_failed` untouched. -/
def applyLoad (st : ScheduleManager) : LoadResult → ScheduleManager
  | LoadResult.missing => st
  | LoadResult.corrupt => { st with load_failed := true }
  | LoadResult.parsed d =>
      { st with
          dailyShutdown := d.dailyShutdown,
          dailyRestart := d.dailyRestart,
          weekly_schedules := d.weekly_schedules,
          onetime_schedules := d.onetime,
          skipped_dates := d.skipped_dates,
          debug_mode := d.debug_mode }

/-- Sample state with one non-executed shutdown one-time entry due at
23:00 on day 700000. -/
def onetimeState : ScheduleManager :=
  { initState with onetime_schedules := [⟨3, Action.shutdown, ⟨700000, 23, 0⟩, false, "manual"⟩] }

/-- Sample instant inside the tolerance window of `onetimeState`'s entry:
23:00:30 on day 700000. -/
def hitNow : Now := ⟨700000, 23, 0, 30⟩

/-- Sample state with one shutdown weekly entry at (Wed, 08:00) whose
occurrence on day 700002 (a Wednesday) is in the skip list. -/
def weeklySkipState : ScheduleManager :=
  { initState with
      weekly_schedules := [⟨4, Action.shutdown, 2, 8, 0⟩],
      skipped_dates := [⟨700002, 8, 0⟩] }

/-- The skipped Wednesday 08:00 instant for `weeklySkipState`. -/
def skipNow : Now := ⟨700002, 8, 0, 5⟩

/-- The following Wednesday 08:00 instant, not skipped. -/
def nextWeekNow : Now := ⟨700009, 8, 0, 5⟩

/-- Sample state with one non-executed shutdown one-time entry at 23:00 on
day 700000 whose formatted timestamp is also in the skip list. -/
def onetimeSkipState : ScheduleManager :=
  { initState with
      onetime_schedules := [⟨6, Action.shutdown, ⟨700000, 23, 0⟩, false, "manual"⟩],
      skipped_dates := [⟨700000, 23, 0⟩] }

/-- Embeds `ScheduleManager.remove_weekly`: keep the entries whose id
differs. -/
def removeWeekly (st : ScheduleManager) (sid : Nat) : ScheduleManager :=
  { st with weekly_schedules := st.weekly_schedules.filter (fun s => s.id != sid) }

/-- Embeds `ScheduleManager.remove_onetime`. -/
def removeOnetime (st : ScheduleManager) (sid : Nat) : ScheduleManager :=
  { st with onetime_schedules := st.onetime_schedules.filter (fun s => s.id != sid) }

/-- Embeds `ScheduleManager.clear_executed_onetime`: drop the executed
entries of the given action. -/
def clearExecutedOnetime (st : ScheduleManager) (a : Action) : ScheduleManager :=
  { st with onetime_schedules :=
      st.onetime_schedules.filter (fun s => !(s.action == a && s.executed)) }

/-- State of the `_show_confirm_dialog` countdown machine: the `cnt` cell,
the `cancel` cell, and whether `do_ex` (which destroys the dialog and
calls the OS-action executor `_do_immediate_action`) has run. -/
structure GateState where
  cnt : Int
  cancelFlag : Bool
  executedFlag : Bool
deriving DecidableEq, Repr

/-- Events of the dialog: the one-second timer tick, the Confirm button
(`do_ex`) and the Cancel button (`do_cn`). -/
inductive GateInput
  | tick
  | confirm
  | cancelBtn
deriving DecidableEq, Repr

/-- Initial dialog state: the counter cell at 60, neither flag set. -/
def gateInit : GateState := ⟨60, false, false⟩

/-- One transition of the countdown machine.  Once the dialog is destroyed
(either flag set) its buttons are gone and a still-scheduled tick returns
at once (`if cancel[0]: return`), so every input is inert; otherwise
`tick` decrements `cnt` and runs `do_ex` when it reaches ≤ 0, `confirm`
runs `do_ex` immediately, and `cancelBtn` sets the cancel cell consulted
by the next tick. -/
def gateStep (g : GateState) : GateInput → GateState
  | GateInput.tick =>
      if g.cancelFlag || g.executedFlag then g
      else
        let c := g.cnt - 1
        if c ≤ 0 then ⟨c, g.cancelFlag, true⟩ else ⟨c, g.cancelFlag, g.executedFlag⟩
  | GateInput.confirm =>
      if g.cancelFlag || g.executedFlag then g else ⟨g.cnt, g.cancelFlag, true⟩
  | GateInput.cancelBtn =>
      if g.cancelFlag || g.executedFlag then g else ⟨g.cnt, true, g.executedFlag⟩

/-- The pure countdown: `n` timer ticks from the initial state with no
button press. -/
def runTicks (n : Nat) : GateState :=
  (fun g => gateStep g GateInput.tick)^[n] gateInit

/-- Arduino `String.indexOf(ch, fromIndex)`: index of the first occurrence
at or after `fromIndex`, or -1. -/
def strIndexOfFrom (s : List Char) (ch : Char) (start : Int) : Int :=
  match (s.drop start.toNat).findIdx? (fun c => c == ch) with
  | some i => (start.toNat + i : Nat)
  | none => -1

/-- Arduino `String.lastIndexOf(ch)`. -/
def strLastIndexOf (s : List Char) (ch : Char) : Int :=
  match s.reverse.findIdx? (fun c => c == ch) with
  | some i => (s.length : Int) - 1 - (i : Int)
  | none => -1

/-- Arduino `String.substring(left, right)`: swap when `left > right`,
clamp `right` to the length, empty when `left` reaches past the end. -/
def strSubstring (s : List Char) (left right : Int) : List Char :=
  let l := if left > right then right else left
  let r := if left > right then left else right
  if l ≥ (s.length : Int) then []
  else
    let r2 := if r > (s.length : Int) then (s.length : Int) else r
    (s.take r2.toNat).drop l.toNat

/-- Arduino `String.substring(left)` (to the end of the string). -/
def strSubFrom (s : List Char) (left : Int) : List Char :=
  strSubstring s left (s.length : Int)

/-- Value of a maximal run of leading decimal digits. -/
def digitsVal : List Char → Nat → Nat
  | [], acc => acc
  | c :: rest, acc =>
      if c.isDigit then digitsVal rest (acc * 10 + (c.toNat - 48)) else acc

/-- Arduino `String.toInt` (`atol`): skip leading whitespace, read an
optional sign and a maximal digit run; 0 when no digits follow. -/
def strToInt (s : List Char) : Int :=
  let s1 := s.dropWhile (fun c => c == ' ' || c.toNat == 9 || c.toNat == 10 || c.toNat == 13)
  match s1 with
  | c :: rest =>
      if c == '-' then -(digitsVal rest 0 : Int)
      else if c == '+' then (digitsVal rest 0 : Int)
      else (digitsVal s1 0 : Int)
  | [] => 0

/-- One fixed slot of the firmware's `weeklySchedules` array (the cosmetic
`String id` the handler also stores is never read back and is omitted). -/
structure WeeklySlot where
  weekday : Int
  hour : Int
  minute : Int
deriving DecidableEq, Repr

/-- One fixed slot of the firmware's `onetimeSchedules` array. -/
structure OnetimeSlot where
  year : Int
  month : Int
  day : Int
  hour : Int
  minute : Int
  executed : Bool
deriving DecidableEq, Repr

/-- Parses one `weekday,hour,minute` item of the `weekly` batch: the item
is accepted when it has a first and a distinct last comma
(`c1 != -1 && c2 != -1 && c1 != c2`), otherwise skipped. -/
def parseWeeklyItem (item : List Char) : Option WeeklySlot :=
  let c1 := strIndexOfFrom item ',' 0
  let c2 := strLastIndexOf item ','
  if c1 != -1 && c2 != -1 && c1 != c2 then
    some ⟨strToInt (strSubstring item 0 c1),
          strToInt (strSubstring item (c1 + 1) c2),
          strToInt (strSubFrom item (c2 + 1))⟩
  else none

/-- Parses one `year,month,day,hour,minute` item of the `onetime` batch
(the Standard firmware): accepted when all four commas are found. -/
def parseOnetimeItem (item : List Char) : Option OnetimeSlot :=
  let c1 := strIndexOfFrom item ',' 0
  let c2 := strIndexOfFrom item ',' (c1 + 1)
  let c3 := strIndexOfFrom item ',' (c2 + 1)
  let c4 := strIndexOfFrom item ',' (c3 + 1)
  if c1 != -1 && c2 != -1 && c3 != -1 && c4 != -1 then
    some ⟨strToInt (strSubstring item 0 c1),
          strToInt (strSubstring item (c1 + 1) c2),
          strToInt (strSubstring item (c2 + 1) c3),
          strToInt (strSubstring item (c3 + 1) c4),
          strToInt (strSubFrom item (c4 + 1)),
          false⟩
  else none

/-- Parses one onetime item of the newer firmware copy, which accepts the
item when `c4 != -1` and reads an optional sixth `source` field after a
fifth comma; the slot fields relevant to matching are the same five
integers. -/
def parseOnetimeItemSrc (item : List Char) : Option (OnetimeSlot × List Char) :=
  let c1 := strIndexOfFrom item ',' 0
  let c2 := strIndexOfFrom item ',' (c1 + 1)
  let c3 := strIndexOfFrom item ',' (c2 + 1)
  let c4 := strIndexOfFrom item ',' (c3 + 1)
  let c5 := strIndexOfFrom item ',' (c4 + 1)
  if c4 != -1 then
    let yv := strToInt (strSubstring item 0 c1)
    let mov := strToInt (strSubstring item (c1 + 1) c2)
    let dv := strToInt (strSubstring item (c2 + 1) c3)
    let hv := strToInt (strSubstring item (c3 + 1) c4)
    if c5 != -1 then
      some (⟨yv, mov, dv, hv, strToInt (strSubstring item (c4 + 1) c5), false⟩,
            strSubFrom item (c5 + 1))
    else
      some (⟨yv, mov, dv, hv, strToInt (strSubFrom item (c4 + 1)), false⟩,
            "manual".data)
  else none

/-- The batch loop shared by the weekly and onetime branches of
`handleUpdateSchedule`: while the remaining string is nonempty and fewer
than `cap` slots are filled, cut the head item at the first semicolon,
store it through `f` when it parses, skip it otherwise, and continue on
the remainder.  An explicit `fuel` parameter makes the recursion
structural; each iteration strictly shortens the string, so fuel equal to
the string length (as `parseBatch` supplies) always suffices — see
`parseBatchGo_eq_take`, which is independent of any adequate fuel. -/
def parseBatchGo {α : Type} (f : List Char → Option α) (cap : Nat) :
    Nat → List Char → Nat → List α
  | 0, _, _ => []
  | fuel + 1, s, cnt =>
      if s.length = 0 ∨ cap ≤ cnt then []
      else
        let semi := strIndexOfFrom s ';' 0
        let item := if semi == -1 then s else strSubstring s 0 semi
        let rest := if semi == -1 then [] else strSubFrom s (semi + 1)
        match f item with
        | some x => x :: parseBatchGo f cap fuel rest (cnt + 1)
        | none => parseBatchGo f cap fuel rest cnt

/-- The batch loop started on a batch string with `cnt` slots already
filled (the handler always starts at 0 after resetting the count). -/
def parseBatch {α : Type} (f : List Char → Option α) (cap : Nat) (s : List Char) (cnt : Nat) :
    List α :=
  parseBatchGo f cap s.length s cnt

/-- The item decomposition the loop induces on a batch string: split at
each first semicolon until the remainder is empty (fuelled like the loop
itself). -/
def splitSemiGo : Nat → List Char → List (List Char)
  | 0, _ => []
  | fuel + 1, s =>
      if s.length = 0 then []
      else
        let semi := strIndexOfFrom s ';' 0
        if semi == -1 then [s]
        else strSubstring s 0 semi :: splitSemiGo fuel (strSubFrom s (semi + 1))

/-- Items of a batch string. -/
def splitSemi (s : List Char) : List (List Char) :=
  splitSemiGo s.length s

/-- Device-side daily wake setting (`ScheduleDaily`). -/
structure DeviceDaily where
  enabled : Bool
  hour : Int
  minute : Int
deriving DecidableEq, Repr

/-- Device state touched by `handleUpdateSchedule`: the wake target MAC,
the daily wake setting and the two fixed 10-slot arrays (modelled as the
occupied prefix). -/
structure DeviceState where
  targetMac : List Char
  dailyWakeup : DeviceDaily
  weeklySchedules : List WeeklySlot
  onetimeSchedules : List OnetimeSlot
deriving DecidableEq, Repr

/-- Form-encoded update request: `none` models a missing argument
(`server.hasArg` false); `d_h`/`d_m` default to the empty string, whose
`toInt` is 0, when absent. -/
structure UpdateRequest where
  mac : Option (List Char)
  d_en : Option (List Char)
  d_h : List Char
  d_m : List Char
  weekly : Option (List Char)
  onetime : Option (List Char)
deriving DecidableEq, Repr

/-- Embeds the Standard firmware's `handleUpdateSchedule`: reject with 400
(`none`) when `d_en` is missing; otherwise overwrite the MAC when sent,
overwrite the daily wake setting, and rebuild each 10-slot array from its
batch string when the argument is present (resetting the count to 0
first), leaving it untouched when absent. -/
def handleUpdateSchedule (req : UpdateRequest) (dev : DeviceState) : Option DeviceState :=
  match req.d_en with
  | none => none
  | some den =>
      let dev1 := match req.mac with
        | some m => { dev with targetMac := m }
        | none => dev
      let dev2 := { dev1 with
        dailyWakeup := ⟨strToInt den == 1, strToInt req.d_h, strToInt req.d_m⟩ }
      let dev3 := match req.weekly with
        | some w => { dev2 with weeklySchedules := parseBatch parseWeeklyItem 10 w 0 }
        | none => dev2
      let dev4 := match req.onetime with
        | some o => { dev3 with onetimeSchedules := parseBatch parseOnetimeItem 10 o 0 }
        | none => dev3
      some dev4

/-- Sample sync request carrying a daily wake time, two weekly items and a
onetime batch with one malformed item. -/
def sampleRequest : UpdateRequest :=
  ⟨some ("AA:BB:CC:DD:EE:FF".data), some ("1".data), "7".data, "0".data,
   some ("0,7,0;1,8,30".data), some ("2099,1,2,3,4;9,9".data)⟩

/-- Device state before the sample sync. -/
def emptyDevice : DeviceState := ⟨[], ⟨false, 0, 0⟩, [], []⟩

theorem strSubFrom_length_lt (s : List Char) (i : Int) (hi : 0 ≤ i) (hs : s.length ≠ 0) :
    (strSubFrom s (i + 1)).length < s.length := by
  unfold strSubFrom strSubstring
  dsimp only
  split_ifs
  all_goals try simp only [List.length_nil, List.length_drop, List.length_take]
  all_goals omega

theorem strIndexOfFrom_nonneg (s : List Char) (ch : Char) (start : Int)
    (h : strIndexOfFrom s ch start ≠ -1) : 0 ≤ strIndexOfFrom s ch start := by
  unfold strIndexOfFrom at h ⊢
  cases hfi : (s.drop start.toNat).findIdx? (fun c => c == ch) with
  | some i => exact Int.natCast_nonneg _
  | none =>
      rw [hfi] at h
      exact absurd rfl h

theorem dailyGate_isSome (od : DailySetting) (c : ConflictDesc) (h m : Nat) :
    (if (od.enabled && od.hour == h && od.minute == m) = true then some c else none).isSome = true
      ↔ od.enabled = true ∧ od.hour = h ∧ od.minute = m := by
  by_cases hc : (od.enabled && od.hour == h && od.minute == m) = true
  · simp only [if_pos hc, Option.isSome_some, true_iff]
    simpa [Bool.and_eq_true, beq_iff_eq, and_assoc] using hc
  · simp only [if_neg hc, Option.isSome_none, Bool.false_eq_true, false_iff]
    intro hcol
    exact hc (by simp [hcol.1, hcol.2.1, hcol.2.2])

theorem checkConflict_daily_isSome (st : ScheduleManager) (a : Action) (h m : Nat) :
    (checkConflict st a (TimeInfo.daily h m)).isSome = true ↔ specDailyCollision st a h m := by
  simp only [checkConflict]
  exact dailyGate_isSome (st.daily (otherAction a)) _ h m

theorem checkConflict_weekly_isSome (st : ScheduleManager) (a : Action) (w h m : Nat) :
    (checkConflict st a (TimeInfo.weekly w h m)).isSome = true ↔ specWeeklyCollision st a w h m := by
  simp only [checkConflict, specWeeklyCollision]
  cases hf : st.weekly_schedules.find? (fun s =>
      s.action == otherAction a && s.weekday == w && s.hour == h && s.minute == m) with
  | some s =>
      simp only [hf, Option.isSome_some, true_iff]
      have hm1 := List.mem_of_find?_eq_some hf
      have hp := List.find?_some hf
      simp only [Bool.and_eq_true, beq_iff_eq] at hp
      exact Or.inl ⟨s, hm1, hp.1.1.1, hp.1.1.2, hp.1.2, hp.2⟩
  | none =>
      have hn := List.find?_eq_none.mp hf
      simp only [hf]
      rw [dailyGate_isSome]
      constructor
      · intro hd
        exact Or.inr ⟨hd.1, hd.2.1, hd.2.2⟩
      · intro hcol
        rcases hcol with ⟨s, hmem, h1, h2, h3, h4⟩ | hd
        · exact absurd (by simp [h1, h2, h3, h4]) (hn s hmem)
        · exact ⟨hd.1, hd.2.1, hd.2.2⟩

theorem checkConflict_onetime_isSome (st : ScheduleManager) (a : Action) (dt : DT) :
    (checkConflict st a (TimeInfo.onetime dt)).isSome = true ↔ specOnetimeCollision st a dt := by
  simp only [checkConflict, specOnetimeCollision]
  cases ho : st.onetime_schedules.find? (fun s =>
      s.action == otherAction a && !s.executed && s.datetime == dt) with
  | some s =>
      simp only [ho, Option.isSome_some, true_iff]
      have hm1 := List.mem_of_find?_eq_some ho
      have hp := List.find?_some ho
      simp only [Bool.and_eq_true, beq_iff_eq, Bool.not_eq_eq_eq_not, Bool.not_true] at hp
      exact Or.inl ⟨s, hm1, hp.1.1, by simpa using hp.1.2, hp.2⟩
  | none =>
      have hno := List.find?_eq_none.mp ho
      simp only [ho]
      cases hw : st.weekly_schedules.find? (fun s =>
          s.action == otherAction a && s.weekday == dt.weekday && s.hour == dt.hour && s.minute == dt.minute) with
      | some s =>
          simp only [hw, Option.isSome_some, true_iff]
          have hm1 := List.mem_of_find?_eq_some hw
          have hp := List.find?_some hw
          simp only [Bool.and_eq_true, beq_iff_eq] at hp
          exact Or.inr (Or.inl ⟨s, hm1, hp.1.1.1, hp.1.1.2, hp.1.2, hp.2⟩)
      | none =>
          have hnw := List.find?_eq_none.mp hw
          simp only [hw]
          rw [dailyGate_isSome]
          constructor
          · intro hd
            exact Or.inr (Or.inr ⟨hd.1, hd.2.1, hd.2.2⟩)
          · intro hcol
            rcases hcol with ⟨s, hmem, h1, h2, h3⟩ | ⟨s, hmem, h1, h2, h3, h4⟩ | hd
            · exact absurd (by simp [h1, h2, h3]) (hno s hmem)
            · exact absurd (by simp [h1, h2, h3, h4]) (hnw s hmem)
            · exact ⟨hd.1, hd.2.1, hd.2.2⟩

theorem addWeeklyFlow_of_none (st : ScheduleManager) (fid : Nat) (a : Action) (w h m : Nat)
    (hnone : checkConflict st a (TimeInfo.weekly w h m) = none) :
    addWeeklyFlow st fid a w h m
      = ({ st with weekly_schedules := st.weekly_schedules ++ [⟨fid, a, w, h, m⟩] }, none) := by
  unfold addWeeklyFlow
  rw [hnone]
  rfl

theorem setDailyFlow_of_none (st : ScheduleManager) (a : Action) (h m : Nat)
    (hnone : checkConflict st a (TimeInfo.daily h m) = none) :
    setDailyFlow st a true h m = (st.setDaily a ⟨true, h, m⟩, none) := by
  unfold setDailyFlow
  rw [if_pos rfl, hnone]

theorem addOnetimeFlow_of_none (st : ScheduleManager) (fid : Nat) (a : Action) (y mo d h mi : Nat)
    (hvalid : dateValid y mo d h mi = true)
    (hnone : checkConflict st a (TimeInfo.onetime (mkDT y mo d h mi)) = none) :
    addOnetimeFlow st fid a y mo d h mi
      = ({ st with onetime_schedules :=
            st.onetime_schedules ++ [⟨fid, a, mkDT y mo d h mi, false, "manual"⟩] }, none, true) := by
  unfold addOnetimeFlow
  rw [if_pos hvalid]
  simp only [hnone, addOnetime]

theorem notSome_eq_none {α : Type} {o : Option α} (h : o.isSome ≠ true) : o = none := by
  cases o with
  | none => rfl
  | some c => exact absurd rfl h

/-- C1: for every weekly, one-time or daily addition of one action, a
collision — same-kind natural-key equality (daily (hour, minute); weekly
(weekday, hour, minute); one-time exact parsed-datetime equality skipping
executed entries) or cross-kind against the opposing enabled daily setting
and, for one-time, the opposing weekly entry on the candidate's calendar
weekday — holds exactly when `check_conflict` returns a collision
descriptor; on a collision the add is rejected and the store is unchanged,
and with no collision the add commits the new entry. -/
theorem C1_conflict_gate (st : ScheduleManager) (fid : Nat) (a : Action)
    (w h m dh dm y mo d oh om : Nat)
    (hvalid : dateValid y mo d oh om = true) :
    ((checkConflict st a (TimeInfo.weekly w h m)).isSome = true ↔ specWeeklyCollision st a w h m)
    ∧ ((checkConflict st a (TimeInfo.daily dh dm)).isSome = true ↔ specDailyCollision st a dh dm)
    ∧ ((checkConflict st a (TimeInfo.onetime (mkDT y mo d oh om))).isSome = true
        ↔ specOnetimeCollision st a (mkDT y mo d oh om))
    ∧ (specWeeklyCollision st a w h m →
        (addWeeklyFlow st fid a w h m).1 = st ∧ (addWeeklyFlow st fid a w h m).2.isSome = true)
    ∧ (¬ specWeeklyCollision st a w h m →
        addWeeklyFlow st fid a w h m
          = ({ st with weekly_schedules := st.weekly_schedules ++ [⟨fid, a, w, h, m⟩] }, none))
    ∧ (specDailyCollision st a dh dm →
        (setDailyFlow st a true dh dm).1 = st ∧ (setDailyFlow st a true dh dm).2.isSome = true)
    ∧ (¬ specDailyCollision st a dh dm →
        setDailyFlow st a true dh dm = (st.setDaily a ⟨true, dh, dm⟩, none))
    ∧ (specOnetimeCollision st a (mkDT y mo d oh om) →
        (addOnetimeFlow st fid a y mo d oh om).1 = st
          ∧ (addOnetimeFlow st fid a y mo d oh om).2.1.isSome = true)
    ∧ (¬ specOnetimeCollision st a (mkDT y mo d oh om) →
        addOnetimeFlow st fid a y mo d oh om
          = ({ st with onetime_schedules :=
                st.onetime_schedules ++ [⟨fid, a, mkDT y mo d oh om, false, "manual"⟩] }, none, true)) := by
  refine ⟨checkConflict_weekly_isSome st a w h m, checkConflict_daily_isSome st a dh dm,
    checkConflict_onetime_isSome st a (mkDT y mo d oh om), ?_, ?_, ?_, ?_, ?_, ?_⟩
  · intro hc
    have hs := (checkConflict_weekly_isSome st a w h m).mpr hc
    unfold addWeeklyFlow
    cases hcc : checkConflict st a (TimeInfo.weekly w h m) with
    | none => rw [hcc] at hs; simp at hs
    | some c => simp [hcc]
  · intro hc
    have hnone := notSome_eq_none (fun hh => hc ((checkConflict_weekly_isSome st a w h m).mp hh))
    exact addWeeklyFlow_of_none st fid a w h m hnone
  · intro hc
    have hs := (checkConflict_daily_isSome st a dh dm).mpr hc
    unfold setDailyFlow
    rw [if_pos rfl]
    cases hcc : checkConflict st a (TimeInfo.daily dh dm) with
    | none => rw [hcc] at hs; simp at hs
    | some c => simp [hcc]
  · intro hc
    have hnone := notSome_eq_none (fun hh => hc ((checkConflict_daily_isSome st a dh dm).mp hh))
    exact setDailyFlow_of_none st a dh dm hnone
  · intro hc
    have hs := (checkConflict_onetime_isSome st a (mkDT y mo d oh om)).mpr hc
    unfold addOnetimeFlow
    rw [if_pos hvalid]
    cases hcc : checkConflict st a (TimeInfo.onetime (mkDT y mo d oh om)) with
    | none => rw [hcc] at hs; simp at hs
    | some c => simp [hcc]
  · intro hc
    have hnone := notSome_eq_none (fun hh => hc ((checkConflict_onetime_isSome st a (mkDT y mo d oh om)).mp hh))
    exact addOnetimeFlow_of_none st fid a y mo d oh om hvalid hnone

/-- Witness for C1: in `conflictState` a shutdown weekly add at the slot
(Wed, 08:30) of the opposing restart weekly entry is rejected with the
store unchanged, while in `initState` (no opposing entries) a shutdown
weekly add at the same slot commits. -/
theorem C1_conflict_gate_witness :
    ((addWeeklyFlow conflictState 9 Action.shutdown 2 8 30).1 = conflictState
      ∧ (addWeeklyFlow conflictState 9 Action.shutdown 2 8 30).2.isSome = true)
    ∧ addWeeklyFlow initState 9 Action.shutdown 2 8 30
        = ({ initState with weekly_schedules := [⟨9, Action.shutdown, 2, 8, 30⟩] }, none) := by
  constructor
  · exact (C1_conflict_gate conflictState 9 Action.shutdown 2 8 30 23 0 2024 1 1 8 30
      (by decide)).2.2.2.1 (by decide)
  · have := (C1_conflict_gate initState 9 Action.shutdown 2 8 30 23 0 2024 1 1 8 30
      (by decide)).2.2.2.2.1 (by decide)
    simpa [initState] using this

/-- C7 counterexample: a weekly add with hour 99 (outside 0-23) is NOT
rejected — `add_weekly` performs no range check and the GUI handler's
`int()` conversion accepts any numeral — so the out-of-range entry is
committed to the store, contradicting the claim that such an add is
rejected with nothing committed. -/
theorem C7_counterexample :
    addWeeklyFlow initState 5 Action.shutdown 0 99 0
      = ({ initState with weekly_schedules := [⟨5, Action.shutdown, 0, 99, 0⟩] }, none)
    ∧ (setDailyFlow initState Action.shutdown true 99 99).1.dailyShutdown = ⟨true, 99, 99⟩ := by
  constructor
  · rw [addWeeklyFlow_of_none initState 5 Action.shutdown 0 99 0 (by decide)]
    simp [initState]
  · decide

/-- C7 amended: only the one-time add path validates ranges — the
`datetime(y, mo, d, h, mi)` constructor raises on any out-of-range field
or unparseable date, the surrounding `try` rejects the entry, and nothing
is committed; weekly adds and daily updates perform no range validation on
hour and minute, committing any integer values whenever no conflict is
reported (their rejection happens only when input-text parsing itself
fails, e.g. an unrecognized weekday name). -/
theorem C7_validation (st : ScheduleManager) (fid : Nat) (a : Action)
    (y mo d h mi w wh wm dh dm : Nat)
    (hbad : dateValid y mo d h mi = false)
    (hwn : checkConflict st a (TimeInfo.weekly w wh wm) = none)
    (hdn : checkConflict st a (TimeInfo.daily dh dm) = none) :
    addOnetimeFlow st fid a y mo d h mi = (st, none, false)
    ∧ addWeeklyFlow st fid a w wh wm
        = ({ st with weekly_schedules := st.weekly_schedules ++ [⟨fid, a, w, wh, wm⟩] }, none)
    ∧ setDailyFlow st a true dh dm = (st.setDaily a ⟨true, dh, dm⟩, none) := by
  refine ⟨?_, addWeeklyFlow_of_none st fid a w wh wm hwn, setDailyFlow_of_none st a dh dm hdn⟩
  unfold addOnetimeFlow
  rw [if_neg (by simp [hbad])]

/-- Witness for C7 amended: February 30th is unparseable, so the one-time
add commits nothing; a weekly add at hour 99 and a daily update at 99:99
both commit on the empty initial store. -/
theorem C7_validation_witness :
    addOnetimeFlow initState 5 Action.shutdown 2024 2 30 10 0 = (initState, none, false)
    ∧ addWeeklyFlow initState 5 Action.shutdown 0 99 0
        = ({ initState with weekly_schedules := [⟨5, Action.shutdown, 0, 99, 0⟩] }, none)
    ∧ setDailyFlow initState Action.shutdown true 99 99
        = (initState.setDaily Action.shutdown ⟨true, 99, 99⟩, none) := by
  have := C7_validation initState 5 Action.shutdown 2024 2 30 10 0 0 99 0 99 99
    (by decide) (by decide) (by decide)
  simpa [initState] using this

theorem leCand_trans (a b c : Cand) (h1 : leCand a b = true) (h2 : leCand b c = true) :
    leCand a c = true := by
  simp only [leCand, decide_eq_true_eq] at h1 h2 ⊢
  omega

theorem leCand_total (a b : Cand) : (leCand a b || leCand b a) = true := by
  simp only [leCand, Bool.or_eq_true, decide_eq_true_eq]
  omega

theorem mergeSort_head_min (l : List Cand) (c : Cand) (rest : List Cand)
    (h : l.mergeSort leCand = c :: rest) :
    c ∈ l ∧ ∀ x ∈ l, c.dt.toSec ≤ x.dt.toSec := by
  have hperm := List.mergeSort_perm l leCand
  have hsorted := List.sorted_mergeSort leCand_trans leCand_total l
  rw [h] at hperm hsorted
  constructor
  · exact hperm.mem_iff.mp (List.mem_cons_self c rest)
  · intro x hx
    have hx2 : x ∈ c :: rest := hperm.mem_iff.mpr hx
    rcases List.mem_cons.mp hx2 with rfl | hx3
    · exact Nat.le_refl _
    · have hcx := (List.pairwise_cons.mp hsorted).1 x hx3
      simpa [leCand, decide_eq_true_eq] using hcx

theorem addDays_toSec (dt : DT) (k : Nat) : (dt.addDays k).toSec = dt.toSec + k * 86400 := by
  unfold DT.addDays DT.toSec
  push_cast
  ring

theorem probeSkip_le (skipped : List DT) (step : Nat) :
    ∀ (n : Nat) (dt ret : DT), probeSkip skipped step n dt = some ret → dt.toSec ≤ ret.toSec := by
  intro n
  induction n with
  | zero =>
      intro dt ret h
      simp [probeSkip] at h
  | succ k ih =>
      intro dt ret h
      unfold probeSkip at h
      by_cases hm : dt ∈ skipped
      · rw [if_pos hm] at h
        calc dt.toSec ≤ (dt.addDays step).toSec := by rw [addDays_toSec]; omega
        _ ≤ ret.toSec := ih _ _ h
      · rw [if_neg hm] at h
        cases h
        exact Nat.le_refl _

theorem nowSec_lt_nextDay (n : Now) (hv : n.valid) : n.toSec < (n.day + 1) * 86400 := by
  obtain ⟨h1, h2, h3⟩ := hv
  unfold Now.toSec
  omega

theorem nextWeeklyFrom_future (now : Now) (s : WeeklyEntry) (hv : now.valid) :
    now.toSec < (nextWeeklyFrom now s ⟨now.day, s.hour, s.minute⟩).toSec := by
  obtain ⟨h1, h2, h3⟩ := hv
  unfold nextWeeklyFrom
  dsimp only
  split_ifs with hc <;>
    simp only [DT.addDays, DT.toSec, Now.toSec, Now.weekday] at hc ⊢ <;>
    omega

theorem nextDailyFrom_future (now : Now) (h m : Nat) (hv : now.valid) :
    now.toSec < (nextDailyFrom now ⟨now.day, h, m⟩).toSec := by
  obtain ⟨h1, h2, h3⟩ := hv
  unfold nextDailyFrom
  split_ifs with hc <;>
    simp only [DT.addDays, DT.toSec, Now.toSec] at hc ⊢ <;>
    omega

theorem nextWeeklyStart_in_range (now : Now) (s : WeeklyEntry)
    (hh : s.hour ≤ 23) (hm : s.minute ≤ 59) :
    nextWeeklyStart now s = some (nextWeeklyFrom now s ⟨now.day, s.hour, s.minute⟩) := by
  unfold nextWeeklyStart nowReplace
  rw [if_pos ⟨hh, hm⟩]

theorem nextDailyStart_in_range (now : Now) (setting : DailySetting)
    (hh : setting.hour ≤ 23) (hm : setting.minute ≤ 59) :
    nextDailyStart now setting
      = some (nextDailyFrom now ⟨now.day, setting.hour, setting.minute⟩) := by
  unfold nextDailyStart nowReplace
  rw [if_pos ⟨hh, hm⟩]

theorem weeklyCandidatesGo_in_range (skipped : List DT) (now : Now) :
    ∀ l : List WeeklyEntry, (∀ s ∈ l, s.hour ≤ 23 ∧ s.minute ≤ 59) →
      weeklyCandidatesGo skipped now l
        = some (l.filterMap (fun s =>
            match probeSkip skipped 7 5 (nextWeeklyFrom now s ⟨now.day, s.hour, s.minute⟩) with
            | some dt => some ⟨dt, Kind.weekly, s.action, some s.id⟩
            | none => none)) := by
  intro l
  induction l with
  | nil => intro _; rfl
  | cons s rest ih =>
      intro hall
      have hs := hall s (List.mem_cons_self s rest)
      unfold weeklyCandidatesGo
      rw [nextWeeklyStart_in_range now s hs.1 hs.2,
        ih (fun x hx => hall x (List.mem_cons_of_mem s hx))]
      cases hp : probeSkip skipped 7 5 (nextWeeklyFrom now s ⟨now.day, s.hour, s.minute⟩) with
      | some dt => simp [List.filterMap_cons, hp]
      | none => simp [List.filterMap_cons, hp]

theorem weeklyCandidatesGo_eq (st : ScheduleManager) (now : Now)
    (hw : ∀ s ∈ st.weekly_schedules, s.hour ≤ 23 ∧ s.minute ≤ 59) :
    weeklyCandidatesGo st.skipped_dates now st.weekly_schedules
      = some (weeklyCandidates st now) :=
  weeklyCandidatesGo_in_range st.skipped_dates now st.weekly_schedules hw

theorem dailyCandidatesGo_in_range (st : ScheduleManager) (now : Now)
    (hd : ∀ a, (st.daily a).enabled = true → (st.daily a).hour ≤ 23 ∧ (st.daily a).minute ≤ 59) :
    ∀ l : List Action,
      dailyCandidatesGo st now l
        = some (l.filterMap (fun a =>
            if (st.daily a).enabled then
              match probeSkip st.skipped_dates 1 5
                  (nextDailyFrom now ⟨now.day, (st.daily a).hour, (st.daily a).minute⟩) with
              | some dt => some ⟨dt, Kind.daily, a, none⟩
              | none => none
            else none)) := by
  intro l
  induction l with
  | nil => rfl
  | cons a rest ih =>
      unfold dailyCandidatesGo
      dsimp only
      by_cases hen : (st.daily a).enabled = true
      · rw [if_pos hen]
        obtain ⟨hh, hm⟩ := hd a hen
        rw [nextDailyStart_in_range now (st.daily a) hh hm, ih]
        cases hp : probeSkip st.skipped_dates 1 5
            (nextDailyFrom now ⟨now.day, (st.daily a).hour, (st.daily a).minute⟩) with
        | some dt => simp [List.filterMap_cons, hp, hen]
        | none => simp [List.filterMap_cons, hp, hen]
      · rw [if_neg hen, ih]
        simp [List.filterMap_cons, hen]

theorem dailyCandidatesGo_eq (st : ScheduleManager) (now : Now)
    (hd : ∀ a, (st.daily a).enabled = true → (st.daily a).hour ≤ 23 ∧ (st.daily a).minute ≤ 59) :
    dailyCandidatesGo st now [Action.shutdown, Action.restart]
      = some (dailyCandidates st now) :=
  dailyCandidatesGo_in_range st now hd [Action.shutdown, Action.restart]

theorem candidates_future (st : ScheduleManager) (now : Now) (hv : now.valid) :
    ∀ c ∈ candidates st now, now.toSec < c.dt.toSec := by
  intro c hc
  unfold candidates at hc
  rcases List.mem_append.mp hc with hc2 | hc2
  case inl =>
    rcases List.mem_append.mp hc2 with hc3 | hc3
    · rcases List.mem_filterMap.mp hc3 with ⟨s, _, hf⟩
      split_ifs at hf with he hlt hsk <;> cases hf
      exact hlt
    · rcases List.mem_filterMap.mp hc3 with ⟨s, _, hf⟩
      cases hp : probeSkip st.skipped_dates 7 5
          (nextWeeklyFrom now s ⟨now.day, s.hour, s.minute⟩) with
      | none => rw [hp] at hf; cases hf
      | some dt =>
          rw [hp] at hf
          cases hf
          exact Nat.lt_of_lt_of_le (nextWeeklyFrom_future now s hv)
            (probeSkip_le st.skipped_dates 7 5 _ dt hp)
  case inr =>
    rcases List.mem_filterMap.mp hc2 with ⟨a, _, hf⟩
    dsimp only at hf
    split_ifs at hf with hen
    · cases hp : probeSkip st.skipped_dates 1 5
          (nextDailyFrom now ⟨now.day, (st.daily a).hour, (st.daily a).minute⟩) with
      | none => rw [hp] at hf; cases hf
      | some dt =>
          rw [hp] at hf
          cases hf
          exact Nat.lt_of_lt_of_le
            (nextDailyFrom_future now (st.daily a).hour (st.daily a).minute hv)
            (probeSkip_le st.skipped_dates 1 5 _ dt hp)

theorem candidates_daily_id_none (st : ScheduleManager) (now : Now) :
    ∀ c ∈ candidates st now, c.kind = Kind.daily → c.id = none := by
  intro c hc
  unfold candidates at hc
  rcases List.mem_append.mp hc with hc2 | hc2
  case inl =>
    rcases List.mem_append.mp hc2 with hc3 | hc3
    · rcases List.mem_filterMap.mp hc3 with ⟨s, _, hf⟩
      split_ifs at hf with he hlt hsk <;> cases hf
      intro hk
      simp at hk
    · rcases List.mem_filterMap.mp hc3 with ⟨s, _, hf⟩
      cases hp : probeSkip st.skipped_dates 7 5
          (nextWeeklyFrom now s ⟨now.day, s.hour, s.minute⟩) with
      | none => rw [hp] at hf; cases hf
      | some dt =>
          rw [hp] at hf
          cases hf
          intro hk
          simp at hk
  case inr =>
    rcases List.mem_filterMap.mp hc2 with ⟨a, _, hf⟩
    dsimp only at hf
    split_ifs at hf with hen
    · cases hp : probeSkip st.skipped_dates 1 5
          (nextDailyFrom now ⟨now.day, (st.daily a).hour, (st.daily a).minute⟩) with
      | none => rw [hp] at hf; cases hf
      | some dt =>
          rw [hp] at hf
          cases hf
          intro
          rfl

/-- C2 counterexample: the add path commits a weekly entry with hour 99
(no range check, per the C7 correction), and on that reachable store
`get_next_event_info` does not return a next event or the all-`None`
tuple — `now.replace(hour=99, minute=0)` in the weekly branch raises
`ValueError`, which escapes the method (the outer `none` of the embedding),
refuting the claim's quantification over every store state. -/
theorem C2_counterexample :
    (addWeeklyFlow initState 5 Action.shutdown 0 99 0).1
      = { initState with weekly_schedules := [⟨5, Action.shutdown, 0, 99, 0⟩] }
    ∧ getNextEventInfo
        { initState with weekly_schedules := [⟨5, Action.shutdown, 0, 99, 0⟩] } sampleNow
      = none := by
  constructor
  · decide
  · decide

/-- C2 (amended): on every store whose weekly entries and enabled daily
settings carry in-range hour (≤ 23) and minute (≤ 59) — out-of-range
stored values make the `now.replace` of the weekly/daily branches raise
`ValueError`, which escapes `get_next_event_info` — the resolver returns
normally: the `None` tuple exactly when the candidate pool (futures-only
one-time entries, skip-advanced weekly occurrences and skip-advanced
enabled daily occurrences, each bounded to five probes) is empty, and
otherwise a pool member `(dt, kind, action, id)` of minimum timestamp;
every pooled candidate is strictly in the future and daily candidates
carry no entry id. -/
theorem C2_next_event (st : ScheduleManager) (now : Now) (hv : now.valid)
    (hw : ∀ s ∈ st.weekly_schedules, s.hour ≤ 23 ∧ s.minute ≤ 59)
    (hd : ∀ a, (st.daily a).enabled = true → (st.daily a).hour ≤ 23 ∧ (st.daily a).minute ≤ 59) :
    ∃ r, getNextEventInfo st now = some r
    ∧ (r = none ↔ candidates st now = [])
    ∧ (∀ c, r = some c →
        c ∈ candidates st now ∧ ∀ x ∈ candidates st now, c.dt.toSec ≤ x.dt.toSec)
    ∧ (∀ c ∈ candidates st now, now.toSec < c.dt.toSec)
    ∧ (∀ c ∈ candidates st now, c.kind = Kind.daily → c.id = none) := by
  have hres : getNextEventInfo st now
      = some (match (candidates st now).mergeSort leCand with
              | [] => none
              | c :: _ => some c) := by
    unfold getNextEventInfo
    rw [weeklyCandidatesGo_eq st now hw, dailyCandidatesGo_eq st now hd]
    rfl
  refine ⟨_, hres, ?_, ?_, candidates_future st now hv, candidates_daily_id_none st now⟩
  · constructor
    · intro hnone
      cases hms : (candidates st now).mergeSort leCand with
      | nil =>
          have hperm := List.mergeSort_perm (candidates st now) leCand
          rw [hms] at hperm
          exact (List.Perm.nil_eq hperm).symm
      | cons c0 rest =>
          rw [hms] at hnone
          simp at hnone
    · intro hcand
      rw [hcand]
      simp [List.mergeSort]
  · intro c hsome
    cases hms : (candidates st now).mergeSort leCand with
    | nil =>
        rw [hms] at hsome
        simp at hsome
    | cons c0 rest =>
        rw [hms] at hsome
        simp only [Option.some.injEq] at hsome
        subst hsome
        exact mergeSort_head_min (candidates st now) c0 rest hms

/-- Witness for C2: at 22:00 with only the shutdown daily setting enabled
at 23:00 (an in-range store), the resolver returns normally and every
pooled candidate is strictly future. -/
theorem C2_next_event_witness :
    ∃ r, getNextEventInfo dailyOnlyState sampleNow = some r
      ∧ (∀ c ∈ candidates dailyOnlyState sampleNow, sampleNow.toSec < c.dt.toSec) := by
  obtain ⟨r, h1, _, _, h4, _⟩ := C2_next_event dailyOnlyState sampleNow (by decide)
    (by simp [dailyOnlyState, initState]) (fun a => by cases a <;> decide)
  exact ⟨r, h1, h4⟩

theorem fireFirstOnetime_char (now : Now) :
    ∀ (l l2 : List OneTimeEntry) (hit : OneTimeEntry),
      fireFirstOnetime now l = some (l2, hit) →
      ∃ i, ∃ hlt : i < l.length,
        (l.get ⟨i, hlt⟩).executed = false
        ∧ toleranceHit now (l.get ⟨i, hlt⟩).datetime = true
        ∧ hit = { l.get ⟨i, hlt⟩ with executed := true }
        ∧ l2 = l.set i hit := by
  intro l
  induction l with
  | nil =>
      intro l2 hit h
      simp [fireFirstOnetime] at h
  | cons s rest ih =>
      intro l2 hit h
      unfold fireFirstOnetime at h
      by_cases hm : (!s.executed && toleranceHit now s.datetime) = true
      · rw [if_pos hm] at h
        cases h
        simp only [Bool.and_eq_true, Bool.not_eq_eq_eq_not, Bool.not_true] at hm
        refine ⟨0, Nat.succ_pos _, ?_, ?_, rfl, rfl⟩
        · simpa using hm.1
        · simpa using hm.2
      · rw [if_neg hm] at h
        cases hr : fireFirstOnetime now rest with
        | none => rw [hr] at h; cases h
        | some p =>
            rw [hr] at h
            obtain ⟨rest2, hit2⟩ := p
            cases h
            obtain ⟨i, hlt, h1, h2, h3, h4⟩ := ih rest2 hit hr
            exact ⟨i + 1, Nat.succ_lt_succ hlt, by simpa using h1, by simpa using h2,
              by simpa using h3, by simp [h4]⟩

theorem fireFirstOnetime_eq_none (now : Now) :
    ∀ l : List OneTimeEntry, fireFirstOnetime now l = none
      ↔ ∀ s ∈ l, (!s.executed && toleranceHit now s.datetime) = false := by
  intro l
  induction l with
  | nil => simp [fireFirstOnetime]
  | cons s rest ih =>
      unfold fireFirstOnetime
      by_cases hm : (!s.executed && toleranceHit now s.datetime) = true
      · rw [if_pos hm]
        constructor
        · intro h; cases h
        · intro hall
          exact absurd (hall s (List.mem_cons_self s rest)) (by simp [hm])
      · rw [if_neg hm]
        cases hr : fireFirstOnetime now rest with
        | none =>
            constructor
            · intro _ x hx
              rcases List.mem_cons.mp hx with rfl | hx2
              · exact Bool.eq_false_iff.mpr hm
              · exact (ih.mp hr) x hx2
            · intro _
              rfl
        | some p =>
            constructor
            · intro h; cases h
            · intro hall
              have hnone : fireFirstOnetime now rest = none :=
                ih.mpr (fun x hx => hall x (List.mem_cons_of_mem s hx))
              rw [hr] at hnone
              cases hnone

theorem checkAndExecute_onetime_len (st : ScheduleManager) (now : Now) :
    ((checkAndExecute st now).2.1).onetime_schedules.length = st.onetime_schedules.length := by
  unfold checkAndExecute
  cases hf : fireFirstOnetime now st.onetime_schedules with
  | some p =>
      obtain ⟨l2, hit⟩ := p
      obtain ⟨i, hlt, _, _, _, h4⟩ := fireFirstOnetime_char now st.onetime_schedules l2 hit hf
      simp [h4]
  | none =>
      cases hw : st.weekly_schedules.find? (weeklyHit now) with
      | some s => by_cases hsk : now.toDT ∈ st.skipped_dates <;> simp [hsk]
      | none =>
          cases hd : [Action.shutdown, Action.restart].find? (dailyHit st now) with
          | some a => by_cases hsk : now.toDT ∈ st.skipped_dates <;> simp [hsk]
          | none => rfl

theorem checkAndExecute_onetime_monotone (st : ScheduleManager) (now : Now) :
    ∀ i (hi : i < st.onetime_schedules.length),
      (st.onetime_schedules.get ⟨i, hi⟩).executed = true →
      ∀ e, ((checkAndExecute st now).2.1).onetime_schedules[i]? = some e → e.executed = true := by
  intro i hi hex e he
  unfold checkAndExecute at he
  cases hf : fireFirstOnetime now st.onetime_schedules with
  | some p =>
      obtain ⟨l2, hit⟩ := p
      obtain ⟨j, hjlt, hj1, _, hj3, hj4⟩ := fireFirstOnetime_char now st.onetime_schedules l2 hit hf
      rw [hf] at he
      dsimp only at he
      subst hj4
      by_cases hij : j = i
      · subst hij
        rw [List.getElem?_set_eq_of_lt hit hjlt] at he
        cases he
        rw [hj3]
      · rw [List.getElem?_set_ne (by omega)] at he
        rw [List.getElem?_eq_getElem hi] at he
        cases he
        simpa using hex
  | none =>
      rw [hf] at he
      dsimp only at he
      cases hw : st.weekly_schedules.find? (weeklyHit now) with
      | some s =>
          rw [hw] at he
          by_cases hsk : now.toDT ∈ st.skipped_dates <;>
            simp only [hsk, if_true, if_false] at he <;>
            [skip; skip] <;> first
            | (rw [List.getElem?_eq_getElem hi] at he; cases he; simpa using hex)
      | none =>
          rw [hw] at he
          cases hd : [Action.shutdown, Action.restart].find? (dailyHit st now) with
          | some a =>
              rw [hd] at he
              by_cases hsk : now.toDT ∈ st.skipped_dates <;>
                simp only [hsk, if_true, if_false] at he <;>
                [skip; skip] <;> first
                | (rw [List.getElem?_eq_getElem hi] at he; cases he; simpa using hex)
          | none =>
              rw [hd] at he
              dsimp only at he
              rw [List.getElem?_eq_getElem hi] at he
              cases he
              simpa using hex

theorem runChecks_onetime_len (times : List Now) :
    ∀ st : ScheduleManager,
      (runChecks st times).onetime_schedules.length = st.onetime_schedules.length := by
  induction times with
  | nil => intro st; rfl
  | cons t rest ih =>
      intro st
      show (runChecks ((checkAndExecute st t).2.1) rest).onetime_schedules.length = _
      rw [ih ((checkAndExecute st t).2.1), checkAndExecute_onetime_len st t]

theorem runChecks_onetime_monotone (times : List Now) :
    ∀ (st : ScheduleManager) i (hi : i < st.onetime_schedules.length),
      (st.onetime_schedules.get ⟨i, hi⟩).executed = true →
      ∀ e, (runChecks st times).onetime_schedules[i]? = some e → e.executed = true := by
  induction times with
  | nil =>
      intro st i hi hex e he
      unfold runChecks at he
      simp only [List.foldl_nil] at he
      rw [List.getElem?_eq_getElem hi] at he
      cases he
      simpa using hex
  | cons t rest ih =>
      intro st i hi hex e he
      unfold runChecks at he
      simp only [List.foldl_cons] at he
      have hlen := checkAndExecute_onetime_len st t
      have hi2 : i < ((checkAndExecute st t).2.1).onetime_schedules.length := by omega
      have hstep := checkAndExecute_onetime_monotone st t i hi hex
        (((checkAndExecute st t).2.1).onetime_schedules.get ⟨i, hi2⟩)
        (List.getElem?_eq_getElem hi2)
      exact ih ((checkAndExecute st t).2.1) i hi2 hstep e he

theorem runChecks_cons_eq (st : ScheduleManager) (t : Now) (rest : List Now) :
    runChecks st (t :: rest) = runChecks ((checkAndExecute st t).2.1) rest := rfl

/-- C3: when a `check_and_execute` call matches a one-time entry (first
non-executed entry within the 60-second window), the call returns the
flipped entry list, the effect list is exactly the `save()` call followed
by the handler invocation (persist-before-execute) with the save carrying
the already-flipped store (written out whenever `load_failed` is clear),
the matched entry's `executed` flag is true in the stored list, the flag
survives every sequence of subsequent `check_and_execute` calls, and any
one-time fire in any state only ever picks an entry whose flag was still
false — so the flipped entry never triggers again. -/
theorem C3_onetime_once (st : ScheduleManager) (now : Now)
    (lst2 : List OneTimeEntry) (hit : OneTimeEntry)
    (hfire : fireFirstOnetime now st.onetime_schedules = some (lst2, hit)) :
    checkAndExecute st now
      = (true, { st with onetime_schedules := lst2 },
         [Effect.save { st with onetime_schedules := lst2 },
          Effect.execute hit.action (Trigger.onetime hit.datetime)])
    ∧ hit.executed = true
    ∧ (∃ i, ∃ hlt : i < st.onetime_schedules.length,
        (st.onetime_schedules.get ⟨i, hlt⟩).executed = false
        ∧ hit = { st.onetime_schedules.get ⟨i, hlt⟩ with executed := true }
        ∧ lst2 = st.onetime_schedules.set i hit)
    ∧ (st.load_failed = false →
        performSave { st with onetime_schedules := lst2 }
          = some (serialize { st with onetime_schedules := lst2 }))
    ∧ (∀ (times : List Now) (i : Nat) (hi : i < lst2.length),
        (lst2.get ⟨i, hi⟩).executed = true →
        ∀ e, (runChecks { st with onetime_schedules := lst2 } times).onetime_schedules[i]? = some e →
          e.executed = true)
    ∧ (∀ (st3 : ScheduleManager) (n3 : Now) (l3 : List OneTimeEntry) (h3 : OneTimeEntry),
        fireFirstOnetime n3 st3.onetime_schedules = some (l3, h3) →
        ∃ j, ∃ hj : j < st3.onetime_schedules.length,
          (st3.onetime_schedules.get ⟨j, hj⟩).executed = false
          ∧ h3 = { st3.onetime_schedules.get ⟨j, hj⟩ with executed := true }) := by
  obtain ⟨i, hlt, h1, h2, h3, h4⟩ := fireFirstOnetime_char now st.onetime_schedules lst2 hit hfire
  refine ⟨?_, ?_, ⟨i, hlt, h1, h3, h4⟩, ?_, ?_, ?_⟩
  · unfold checkAndExecute
    rw [hfire]
  · rw [h3]
  · intro hlf
    unfold performSave
    simp [hlf]
  · intro times i2 hi hex e he
    exact runChecks_onetime_monotone times { st with onetime_schedules := lst2 } i2 hi hex e he
  · intro st3 n3 l3 h3x hf3
    obtain ⟨j, hj, hj1, _, hj3, _⟩ := fireFirstOnetime_char n3 st3.onetime_schedules l3 h3x hf3
    exact ⟨j, hj, hj1, hj3⟩

/-- Witness for C3: in `onetimeState` at 23:00:30, the 23:00 one-time
entry fires, the store is saved with `executed=true` before the handler
runs, and the effect list is exactly save-then-execute. -/
theorem C3_onetime_once_witness :
    checkAndExecute onetimeState hitNow
      = (true,
         { onetimeState with
             onetime_schedules := [⟨3, Action.shutdown, ⟨700000, 23, 0⟩, true, "manual"⟩] },
         [Effect.save { onetimeState with
             onetime_schedules := [⟨3, Action.shutdown, ⟨700000, 23, 0⟩, true, "manual"⟩] },
          Effect.execute Action.shutdown (Trigger.onetime ⟨700000, 23, 0⟩)]) :=
  (C3_onetime_once onetimeState hitNow
    [⟨3, Action.shutdown, ⟨700000, 23, 0⟩, true, "manual"⟩]
    ⟨3, Action.shutdown, ⟨700000, 23, 0⟩, true, "manual"⟩ (by decide)).1

theorem countExec_le_one (st : ScheduleManager) (now : Now) :
    ((checkAndExecute st now).2.2.countP isExec) ≤ 1 := by
  unfold checkAndExecute
  cases fireFirstOnetime now st.onetime_schedules with
  | some p =>
      obtain ⟨l2, hit⟩ := p
      simp [isExec, List.countP, List.countP.go]
  | none =>
      cases st.weekly_schedules.find? (weeklyHit now) with
      | some s =>
          by_cases hsk : now.toDT ∈ st.skipped_dates <;>
            simp [hsk, isExec, List.countP, List.countP.go]
      | none =>
          cases [Action.shutdown, Action.restart].find? (dailyHit st now) with
          | some a =>
              by_cases hsk : now.toDT ∈ st.skipped_dates <;>
                simp [hsk, isExec, List.countP, List.countP.go]
          | none => simp [List.countP, List.countP.go]

/-- C4: every `check_and_execute` call invokes the action handler at most
once, and when some non-executed one-time entry lies in the tolerance
window the call resolves entirely inside the one-time branch — the result
is the one-time fire, identically for every choice of weekly entries,
daily settings and skip list, so neither weekly nor daily evaluation can
influence that call. -/
theorem C4_priority (st : ScheduleManager) (now : Now)
    (hmatch : ∃ s ∈ st.onetime_schedules, (!s.executed && toleranceHit now s.datetime) = true) :
    (∀ (st2 : ScheduleManager) (n2 : Now), ((checkAndExecute st2 n2).2.2.countP isExec) ≤ 1)
    ∧ (∃ lst2 hit,
        fireFirstOnetime now st.onetime_schedules = some (lst2, hit)
        ∧ ∀ (ws : List WeeklyEntry) (d1 d2 : DailySetting) (sk : List DT),
            checkAndExecute ⟨d1, d2, ws, st.onetime_schedules, sk, st.debug_mode, st.load_failed⟩ now
              = (true,
                 ⟨d1, d2, ws, lst2, sk, st.debug_mode, st.load_failed⟩,
                 [Effect.save ⟨d1, d2, ws, lst2, sk, st.debug_mode, st.load_failed⟩,
                  Effect.execute hit.action (Trigger.onetime hit.datetime)])) := by
  refine ⟨countExec_le_one, ?_⟩
  cases hf : fireFirstOnetime now st.onetime_schedules with
  | none =>
      obtain ⟨s, hs, hp⟩ := hmatch
      have := (fireFirstOnetime_eq_none now st.onetime_schedules).mp hf s hs
      rw [hp] at this
      cases this
  | some p =>
      obtain ⟨lst2, hit⟩ := p
      refine ⟨lst2, hit, rfl, ?_⟩
      intro ws d1 d2 sk
      have hf2 : fireFirstOnetime now
          (⟨d1, d2, ws, st.onetime_schedules, sk, st.debug_mode, st.load_failed⟩
            : ScheduleManager).onetime_schedules
          = some (lst2, hit) := hf
      unfold checkAndExecute
      rw [hf2]

/-- Witness for C4: with the 23:00 one-time entry in the window, the call
on `onetimeState` returns at most one handler invocation. -/
theorem C4_priority_witness :
    ((checkAndExecute onetimeState hitNow).2.2.countP isExec) ≤ 1
    ∧ (∃ lst2 hit, fireFirstOnetime hitNow onetimeState.onetime_schedules = some (lst2, hit)) := by
  have h := C4_priority onetimeState hitNow
    ⟨⟨3, Action.shutdown, ⟨700000, 23, 0⟩, false, "manual"⟩, by decide, by decide⟩
  obtain ⟨lst2, hit, hfire, _⟩ := h.2
  exact ⟨h.1 onetimeState hitNow, lst2, hit, hfire⟩

/-- C5: with no one-time match, a weekly (or, with no weekly match, a
daily) slot matching the current minute whose formatted timestamp is in
the skip list makes the call log the suppression and return `False` with
the state — weekly entries and daily settings included — completely
unchanged and no handler invocation; the same match on an instant whose
formatted timestamp is not in the skip list invokes the handler. -/
theorem C5_skip_suppression (st : ScheduleManager) (now : Now)
    (hno : fireFirstOnetime now st.onetime_schedules = none) :
    (∀ s, st.weekly_schedules.find? (weeklyHit now) = some s →
      (now.toDT ∈ st.skipped_dates →
        checkAndExecute st now = (false, st, [Effect.logSkip Kind.weekly now.toDT]))
      ∧ (now.toDT ∉ st.skipped_dates →
        checkAndExecute st now
          = (true, st, [Effect.execute s.action (Trigger.weekly s.weekday s.hour s.minute)])))
    ∧ (st.weekly_schedules.find? (weeklyHit now) = none →
      ∀ a, [Action.shutdown, Action.restart].find? (dailyHit st now) = some a →
        (now.toDT ∈ st.skipped_dates →
          checkAndExecute st now = (false, st, [Effect.logSkip Kind.daily now.toDT]))
        ∧ (now.toDT ∉ st.skipped_dates →
          checkAndExecute st now
            = (true, st, [Effect.execute a (Trigger.daily (st.daily a).hour (st.daily a).minute)]))) := by
  constructor
  · intro s hfind
    constructor
    · intro hsk
      unfold checkAndExecute
      rw [hno, hfind]
      simp [hsk]
    · intro hsk
      unfold checkAndExecute
      rw [hno, hfind]
      simp [hsk]
  · intro hwn a hfind
    constructor
    · intro hsk
      unfold checkAndExecute
      rw [hno, hwn, hfind]
      simp [hsk]
    · intro hsk
      unfold checkAndExecute
      rw [hno, hwn, hfind]
      simp [hsk]

/-- Witness for C5: in `weeklySkipState` the Wednesday 08:00 call on the
skipped date is suppressed with the state unchanged, and the call one week
later (timestamp not skipped) triggers the shutdown handler. -/
theorem C5_skip_suppression_witness :
    checkAndExecute weeklySkipState skipNow
      = (false, weeklySkipState, [Effect.logSkip Kind.weekly skipNow.toDT])
    ∧ checkAndExecute weeklySkipState nextWeekNow
      = (true, weeklySkipState, [Effect.execute Action.shutdown (Trigger.weekly 2 8 0)]) := by
  constructor
  · exact ((C5_skip_suppression weeklySkipState skipNow (by decide)).1
      ⟨4, Action.shutdown, 2, 8, 0⟩ (by decide)).1 (by decide)
  · exact ((C5_skip_suppression weeklySkipState nextWeekNow (by decide)).1
      ⟨4, Action.shutdown, 2, 8, 0⟩ (by decide)).2 (by decide)

/-- C10: the one-time branch of `check_and_execute` never consults the
skip list — a non-executed one-time entry in the tolerance window fires
(returns `True` with a handler invocation) even when its formatted
timestamp is in `skipped_dates` — yet `get_next_event_info` excludes every
skipped timestamp from its one-time candidate pool, so the same entry is
invisible to next-event resolution. -/
theorem C10_onetime_skip_blind (st : ScheduleManager) (now : Now)
    (lst2 : List OneTimeEntry) (hit : OneTimeEntry)
    (hfire : fireFirstOnetime now st.onetime_schedules = some (lst2, hit))
    (hskip : hit.datetime ∈ st.skipped_dates) :
    (checkAndExecute st now).1 = true
    ∧ Effect.execute hit.action (Trigger.onetime hit.datetime) ∈ (checkAndExecute st now).2.2
    ∧ (∀ c ∈ onetimeCandidates st now, c.dt ∉ st.skipped_dates)
    ∧ (∀ c ∈ onetimeCandidates st now, c.dt ≠ hit.datetime) := by
  have hcand : ∀ c ∈ onetimeCandidates st now, c.dt ∉ st.skipped_dates := by
    intro c hc
    rcases List.mem_filterMap.mp hc with ⟨s, _, hf⟩
    split_ifs at hf with he hlt hsk <;> cases hf
    exact hsk
  refine ⟨?_, ?_, hcand, ?_⟩
  · unfold checkAndExecute
    rw [hfire]
  · unfold checkAndExecute
    rw [hfire]
    simp
  · intro c hc heq
    exact hcand c hc (heq ▸ hskip)

/-- Witness for C10: the 23:00 entry of `onetimeSkipState`, whose
timestamp sits in the skip list, still fires at 23:00:30, while the
resolver's one-time candidate pool contains no skipped timestamp. -/
theorem C10_onetime_skip_blind_witness :
    (checkAndExecute onetimeSkipState hitNow).1 = true
    ∧ Effect.execute Action.shutdown (Trigger.onetime ⟨700000, 23, 0⟩)
        ∈ (checkAndExecute onetimeSkipState hitNow).2.2
    ∧ (∀ c ∈ onetimeCandidates onetimeSkipState hitNow, c.dt ∉ onetimeSkipState.skipped_dates) := by
  have h := C10_onetime_skip_blind onetimeSkipState hitNow
    [⟨6, Action.shutdown, ⟨700000, 23, 0⟩, true, "manual"⟩]
    ⟨6, Action.shutdown, ⟨700000, 23, 0⟩, true, "manual"⟩ (by decide) (by decide)
  exact ⟨h.1, h.2.1, h.2.2.1⟩

theorem gateStep_inert (g : GateState) (hg : g.cancelFlag = true) :
    ∀ i, gateStep g i = g := by
  intro i
  cases i <;> simp [gateStep, hg]

theorem foldl_gateStep_inert (l : List GateInput) :
    ∀ g : GateState, g.cancelFlag = true → l.foldl gateStep g = g := by
  induction l with
  | nil => intro g _; rfl
  | cons i rest ih =>
      intro g hg
      show rest.foldl gateStep (gateStep g i) = g
      rw [gateStep_inert g hg i]
      exact ih g hg

/-- C6: the confirmation countdown starts at 60 and, with no button
press, each one-second tick decrements it by exactly one; on the tick that
brings it to zero `do_ex` runs (the OS-action executor is invoked) —
fail-open.  Pressing Confirm before expiry runs `do_ex` immediately, and
pressing Cancel before expiry stops the countdown so that no sequence of
subsequent events can ever reach the execute path. -/
theorem C6_countdown (n k : Nat) (hn : n < 60) (hk : k < 60) :
    (∀ m, m < 60 → runTicks m = ⟨60 - (m : Int), false, false⟩)
    ∧ (runTicks 60).executedFlag = true
    ∧ (runTicks 60).cnt = 0
    ∧ (gateStep (runTicks n) GateInput.confirm).executedFlag = true
    ∧ (∀ inputs : List GateInput,
        (inputs.foldl gateStep (gateStep (runTicks k) GateInput.cancelBtn)).executedFlag = false) := by
  have hfor : ∀ m, m < 60 → runTicks m = ⟨60 - (m : Int), false, false⟩ := by decide
  have h60 : runTicks 60 = ⟨0, false, true⟩ := by decide
  refine ⟨hfor, by rw [h60], by rw [h60], ?_, ?_⟩
  · rw [hfor n hn]
    simp [gateStep]
  · intro inputs
    have hc : gateStep (runTicks k) GateInput.cancelBtn = ⟨60 - (k : Int), true, false⟩ := by
      rw [hfor k hk]
      simp [gateStep]
    rw [hc, foldl_gateStep_inert inputs ⟨60 - (k : Int), true, false⟩ rfl]

/-- Witness for C6: after 59 untouched ticks the counter shows 1 and
nothing has executed; the 60th tick executes; Confirm at tick 10 executes
immediately; Cancel at tick 10 followed by any further ticks never
executes. -/
theorem C6_countdown_witness :
    runTicks 59 = ⟨1, false, false⟩
    ∧ (runTicks 60).executedFlag = true
    ∧ (gateStep (runTicks 10) GateInput.confirm).executedFlag = true
    ∧ ([GateInput.tick, GateInput.tick, GateInput.tick].foldl gateStep
        (gateStep (runTicks 10) GateInput.cancelBtn)).executedFlag = false := by
  have h := C6_countdown 10 10 (by decide) (by decide)
  refine ⟨?_, h.2.1, h.2.2.2.1,
    h.2.2.2.2 [GateInput.tick, GateInput.tick, GateInput.tick]⟩
  rw [h.1 59 (by decide)]
  decide

/-- C8: a corrupt or unreadable state file makes `load()` set
`load_failed`; the flag is never cleared by any later load outcome or
schedule operation (adds, daily updates, removes, clear-executed,
`check_and_execute`), and while it is set every `save()` call returns
without writing, whereas with the flag clear `save()` writes the
serialized current state. -/
theorem C8_load_failed_policy :
    (∀ st : ScheduleManager, (applyLoad st LoadResult.corrupt).load_failed = true)
    ∧ (∀ st : ScheduleManager, st.load_failed = true → performSave st = none)
    ∧ (∀ st : ScheduleManager, st.load_failed = false → performSave st = some (serialize st))
    ∧ (∀ (st : ScheduleManager) (r : LoadResult),
        st.load_failed = true → (applyLoad st r).load_failed = true)
    ∧ (∀ st fid a w h m, ((addWeeklyFlow st fid a w h m).1).load_failed = st.load_failed)
    ∧ (∀ st fid a y mo dd h mi,
        ((addOnetimeFlow st fid a y mo dd h mi).1).load_failed = st.load_failed)
    ∧ (∀ st a e h m, ((setDailyFlow st a e h m).1).load_failed = st.load_failed)
    ∧ (∀ st sid, (removeWeekly st sid).load_failed = st.load_failed)
    ∧ (∀ st sid, (removeOnetime st sid).load_failed = st.load_failed)
    ∧ (∀ st a, (clearExecutedOnetime st a).load_failed = st.load_failed)
    ∧ (∀ st now, ((checkAndExecute st now).2.1).load_failed = st.load_failed) := by
  refine ⟨fun st => rfl, ?_, ?_, ?_, ?_, ?_, ?_, fun st sid => rfl, fun st sid => rfl,
    fun st a => rfl, ?_⟩
  · intro st h
    unfold performSave
    rw [if_pos h]
  · intro st h
    unfold performSave
    rw [if_neg (by simp [h])]
  · intro st r h
    cases r <;> simp [applyLoad, h]
  · intro st fid a w h m
    unfold addWeeklyFlow
    cases checkConflict st a (TimeInfo.weekly w h m) <;> rfl
  · intro st fid a y mo dd h mi
    unfold addOnetimeFlow
    split_ifs with hv
    · cases hcc : checkConflict st a (TimeInfo.onetime (mkDT y mo dd h mi)) <;>
        simp [hcc, addOnetime]
    · rfl
  · intro st a e h m
    unfold setDailyFlow
    split_ifs with he
    · cases checkConflict st a (TimeInfo.daily h m) with
      | some c => rfl
      | none => cases a <;> rfl
    · cases a <;> rfl
  · intro st now
    unfold checkAndExecute
    cases fireFirstOnetime now st.onetime_schedules with
    | some p => obtain ⟨l2, hit⟩ := p; rfl
    | none =>
        cases st.weekly_schedules.find? (weeklyHit now) with
        | some s => by_cases hsk : now.toDT ∈ st.skipped_dates <;> simp [hsk]
        | none =>
            cases [Action.shutdown, Action.restart].find? (dailyHit st now) with
            | some a => by_cases hsk : now.toDT ∈ st.skipped_dates <;> simp [hsk]
            | none => rfl

/-- Witness for C8: a corrupt load on the fresh state suppresses the
subsequent save, while saving the fresh state itself writes its
serialization. -/
theorem C8_load_failed_policy_witness :
    (applyLoad initState LoadResult.corrupt).load_failed = true
    ∧ performSave (applyLoad initState LoadResult.corrupt) = none
    ∧ performSave initState = some (serialize initState) := by
  have h := C8_load_failed_policy
  exact ⟨h.1 initState, h.2.1 _ (h.1 initState), h.2.2.1 initState rfl⟩

theorem parseBatchGo_nil {α : Type} (f : List Char → Option α) (cap : Nat) :
    ∀ fuel cnt, parseBatchGo f cap fuel [] cnt = [] := by
  intro fuel cnt
  cases fuel <;> simp [parseBatchGo]

theorem splitSemiGo_succ (fuel : Nat) (s : List Char) :
    splitSemiGo (fuel + 1) s
      = if s.length = 0 then []
        else
          if (strIndexOfFrom s ';' 0 == -1) = true then [s]
          else strSubstring s 0 (strIndexOfFrom s ';' 0)
            :: splitSemiGo fuel (strSubFrom s (strIndexOfFrom s ';' 0 + 1)) := rfl

theorem parseBatchGo_succ {α : Type} (f : List Char → Option α) (cap fuel : Nat)
    (s : List Char) (cnt : Nat) :
    parseBatchGo f cap (fuel + 1) s cnt
      = if s.length = 0 ∨ cap ≤ cnt then []
        else
          match f (if (strIndexOfFrom s ';' 0 == -1) = true then s
              else strSubstring s 0 (strIndexOfFrom s ';' 0)) with
          | some x => x :: parseBatchGo f cap fuel
              (if (strIndexOfFrom s ';' 0 == -1) = true then []
               else strSubFrom s (strIndexOfFrom s ';' 0 + 1)) (cnt + 1)
          | none => parseBatchGo f cap fuel
              (if (strIndexOfFrom s ';' 0 == -1) = true then []
               else strSubFrom s (strIndexOfFrom s ';' 0 + 1)) cnt := rfl

theorem splitSemiGo_adequate (n : Nat) :
    ∀ (s : List Char), s.length ≤ n → ∀ fuel, s.length ≤ fuel →
      splitSemiGo fuel s = splitSemi s := by
  induction n with
  | zero =>
      intro s hs fuel hf
      have hnil : s = [] := List.eq_nil_of_length_eq_zero (Nat.le_zero.mp hs)
      subst hnil
      cases fuel <;> simp [splitSemi, splitSemiGo]
  | succ k ih =>
      intro s hs fuel hf
      by_cases h0 : s.length = 0
      · have hnil : s = [] := List.eq_nil_of_length_eq_zero h0
        subst hnil
        cases fuel <;> simp [splitSemi, splitSemiGo]
      · obtain ⟨fl, rfl⟩ : ∃ fl, fuel = fl + 1 := ⟨fuel - 1, by omega⟩
        obtain ⟨m, hm⟩ : ∃ m, s.length = m + 1 := ⟨s.length - 1, by omega⟩
        have h2 : splitSemi s = splitSemiGo (m + 1) s := by
          unfold splitSemi
          rw [hm]
        rw [h2, splitSemiGo_succ, splitSemiGo_succ, if_neg h0, if_neg h0]
        by_cases hsemi : (strIndexOfFrom s ';' 0 == -1) = true
        · simp only [if_pos hsemi]
        · simp only [if_neg hsemi]
          have hrest := strSubFrom_length_lt s (strIndexOfFrom s ';' 0)
            (strIndexOfFrom_nonneg s ';' 0 (by simpa using hsemi)) h0
          rw [ih _ (by omega) fl (by omega), ih _ (by omega) m (by omega)]

theorem splitSemiGo_eq_splitSemi (s : List Char) (fuel : Nat) (h : s.length ≤ fuel) :
    splitSemiGo fuel s = splitSemi s :=
  splitSemiGo_adequate s.length s (Nat.le_refl _) fuel h

theorem parseBatchGo_eq_take {α : Type} (f : List Char → Option α) (cap : Nat) :
    ∀ (fuel : Nat) (s : List Char), s.length ≤ fuel → ∀ cnt,
      parseBatchGo f cap fuel s cnt = ((splitSemi s).filterMap f).take (cap - cnt) := by
  intro fuel
  induction fuel with
  | zero =>
      intro s hs cnt
      have hnil : s = [] := List.eq_nil_of_length_eq_zero (Nat.le_zero.mp hs)
      subst hnil
      simp [parseBatchGo, splitSemi, splitSemiGo]
  | succ k ih =>
      intro s hs cnt
      rw [parseBatchGo_succ]
      by_cases h0 : s.length = 0
      · have hnil : s = [] := List.eq_nil_of_length_eq_zero h0
        subst hnil
        simp [splitSemi, splitSemiGo]
      · by_cases hcap : cap ≤ cnt
        · rw [if_pos (Or.inr hcap)]
          have hz : cap - cnt = 0 := by omega
          rw [hz]
          simp
        · rw [if_neg (not_or.mpr ⟨h0, hcap⟩)]
          obtain ⟨m, hm⟩ : ∃ m, s.length = m + 1 := ⟨s.length - 1, by omega⟩
          have hsplit : splitSemi s
              = if (strIndexOfFrom s ';' 0 == -1) = true then [s]
                else strSubstring s 0 (strIndexOfFrom s ';' 0)
                  :: splitSemi (strSubFrom s (strIndexOfFrom s ';' 0 + 1)) := by
            have h2 : splitSemi s = splitSemiGo (m + 1) s := by
              unfold splitSemi
              rw [hm]
            rw [h2, splitSemiGo_succ, if_neg h0]
            by_cases hsemi : (strIndexOfFrom s ';' 0 == -1) = true
            · simp only [if_pos hsemi]
            · simp only [if_neg hsemi]
              have hrest := strSubFrom_length_lt s (strIndexOfFrom s ';' 0)
                (strIndexOfFrom_nonneg s ';' 0 (by simpa using hsemi)) h0
              rw [splitSemiGo_eq_splitSemi _ m (by omega)]
          rw [hsplit]
          by_cases hsemi : (strIndexOfFrom s ';' 0 == -1) = true
          · simp only [if_pos hsemi]
            cases hfx : f s with
            | some x =>
                rw [parseBatchGo_nil]
                simp only [List.filterMap_cons, hfx, List.filterMap_nil]
                obtain ⟨d, hd⟩ : ∃ d, cap - cnt = d + 1 := ⟨cap - cnt - 1, by omega⟩
                rw [hd]
                simp
            | none =>
                simp [List.filterMap_cons, hfx, parseBatchGo_nil]
          · simp only [if_neg hsemi]
            have hrest := strSubFrom_length_lt s (strIndexOfFrom s ';' 0)
              (strIndexOfFrom_nonneg s ';' 0 (by simpa using hsemi)) h0
            cases hfx : f (strSubstring s 0 (strIndexOfFrom s ';' 0)) with
            | some x =>
                rw [ih _ (by omega) (cnt + 1)]
                simp only [List.filterMap_cons, hfx]
                obtain ⟨d, hd⟩ : ∃ d, cap - cnt = d + 1 := ⟨cap - cnt - 1, by omega⟩
                rw [hd]
                have hdd : cap - (cnt + 1) = d := by omega
                rw [hdd]
                simp
            | none =>
                rw [ih _ (by omega) cnt]
                simp [List.filterMap_cons, hfx]

theorem parseBatch_eq_take {α : Type} (f : List Char → Option α) (cap : Nat)
    (s : List Char) (cnt : Nat) :
    parseBatch f cap s cnt = ((splitSemi s).filterMap f).take (cap - cnt) :=
  parseBatchGo_eq_take f cap s.length s (Nat.le_refl _) cnt

/-- C9 counterexample: a onetime sync batch of four items — three valid,
one malformed (`9,9` lacks the required commas) — yields three accepted
entries on the receiving side, not two: the malformed item is skipped and
every valid item is still applied. -/
theorem C9_counterexample :
    (parseBatch parseOnetimeItem 10
        (("2099,1,2,3,4;9,9;2099,1,3,3,4;2099,1,4,3,4").data) 0).length = 3
    ∧ ((parseBatch parseOnetimeItem 10
        (("2099,1,2,3,4;9,9;2099,1,3,3,4;2099,1,4,3,4").data) 0).length = 2 → False) := by
  constructor
  · decide
  · decide

/-- C9 (amended): every `handleUpdateSchedule` request carrying `d_en`
succeeds; each batch string is split at semicolons and parsed item by
item, a malformed item (missing required comma-separated fields) is
skipped while the remaining items are still applied, well-formed items
fill consecutive slots, and at most 10 weekly and 10 one-time entries are
stored with items beyond the capacity silently dropped — the stored array
equals the first ten successfully parsed items of the batch.  A batch of
three valid one-time items plus one malformed yields exactly three
accepted entries (rather than the two the spec's example states), in both
firmware versions of the parser. -/
theorem C9_batch_parsing (req : UpdateRequest) (dev : DeviceState) (den w o : List Char)
    (hden : req.d_en = some den) (hw : req.weekly = some w) (ho : req.onetime = some o) :
    (∃ dev2, handleUpdateSchedule req dev = some dev2
      ∧ dev2.weeklySchedules = ((splitSemi w).filterMap parseWeeklyItem).take 10
      ∧ dev2.onetimeSchedules = ((splitSemi o).filterMap parseOnetimeItem).take 10
      ∧ dev2.weeklySchedules.length ≤ 10
      ∧ dev2.onetimeSchedules.length ≤ 10)
    ∧ parseBatch parseOnetimeItem 10
        (("2099,1,2,3,4;9,9;2099,1,3,3,4;2099,1,4,3,4").data) 0
        = [⟨2099, 1, 2, 3, 4, false⟩, ⟨2099, 1, 3, 3, 4, false⟩, ⟨2099, 1, 4, 3, 4, false⟩]
    ∧ (parseBatch parseOnetimeItemSrc 10
        (("2099,1,2,3,4;9,9;2099,1,3,3,4;2099,1,4,3,4").data) 0).length = 3 := by
  refine ⟨?_, by decide, by decide⟩
  obtain ⟨mac, den0, dh, dm, wk, ot⟩ := req
  dsimp only at hden hw ho
  subst hden
  subst hw
  subst ho
  unfold handleUpdateSchedule
  cases mac <;>
  · dsimp only
    refine ⟨_, rfl, ?_, ?_, ?_, ?_⟩
    · dsimp only
      rw [parseBatch_eq_take, Nat.sub_zero]
    · dsimp only
      rw [parseBatch_eq_take, Nat.sub_zero]
    · dsimp only
      rw [parseBatch_eq_take]
      exact Nat.le_trans (List.length_take_le _ _) (by omega)
    · dsimp only
      rw [parseBatch_eq_take]
      exact Nat.le_trans (List.length_take_le _ _) (by omega)

/-- Witness for C9 amended: the sample request (two weekly items, one
valid and one malformed one-time item) is accepted with both arrays within
capacity. -/
theorem C9_batch_parsing_witness :
    ∃ dev2, handleUpdateSchedule sampleRequest emptyDevice = some dev2
      ∧ dev2.weeklySchedules.length ≤ 10 ∧ dev2.onetimeSchedules.length ≤ 10 := by
  obtain ⟨dev2, h1, _, _, h4, h5⟩ :=
    (C9_batch_parsing sampleRequest emptyDevice ("1".data) ("0,7,0;1,8,30".data)
      ("2099,1,2,3,4;9,9".data) rfl rfl rfl).1
  exact ⟨dev2, h1, h4, h5⟩

end SPM
